import Mathlib

/-!
Verification of the certify-ai backend (src/backend/agent.py and
src/backend/app.py) against its natural-language specification.

The development shallowly embeds the two Python modules:

* JSON values are modelled by the inductive `Json` (the integer fragment of
  JSON numbers; the repository never produces or consumes non-integral
  numbers).  Python's `json.loads` is modelled by `loads` (a recursive-descent
  parser over `List Char` with a fuel argument) and `json.dumps` by `dumps`
  (default separators, `ensure_ascii=False`).
* External collaborators (the Gemini model, Firestore, the OAuth flow) are
  oracles carried in environment records; their replies are universally
  quantified in the theorems.
* Side effects (Firestore writes, model calls) are made explicit by threading
  state records; a raised Python exception is an `Except.error`.
-/

set_option maxHeartbeats 1000000
set_option linter.unusedVariables false

/-- JSON values (integer-number fragment). -/
inductive Json where
  | null
  | bool (b : Bool)
  | num (n : Int)
  | str (s : String)
  | arr (elems : List Json)
  | obj (fields : List (String × Json))
deriving Repr

/-- First value bound to `key`, as Python dict lookup (keys are unique). -/
def getField : List (String × Json) → String → Option Json
  | [], _ => none
  | (k, v) :: fs, key => if k == key then some v else getField fs key

/-- Python dict assignment `d[k] = v`: update the existing entry in place,
else append a new entry (insertion order preserved). -/
def dictInsert (fs : List (String × Json)) (k : String) (v : Json) :
    List (String × Json) :=
  if fs.any (fun kv => kv.1 == k) then
    fs.map (fun kv => if kv.1 == k then (k, v) else kv)
  else
    fs ++ [(k, v)]

/-- Python truthiness of a decoded JSON value (`not data`). -/
def pyTruthy : Json → Bool
  | Json.null => false
  | Json.bool b => b
  | Json.num n => n != 0
  | Json.str s => s != ""
  | Json.arr l => !l.isEmpty
  | Json.obj fs => !fs.isEmpty

/-- `key in data` for a decoded JSON object. -/
def jsonHasKey (j : Json) (key : String) : Bool :=
  match j with
  | Json.obj fs => (getField fs key).isSome
  | _ => false

/-- `data[key]` for a decoded JSON object (total; `Json.null` off-key,
only used under a `jsonHasKey` guard). -/
def jsonGet (j : Json) (key : String) : Json :=
  match j with
  | Json.obj fs => (getField fs key).getD Json.null
  | _ => Json.null

/-! ### Serialization: model of `json.dumps`
Default separators `", "` and `": "`; `ensure_ascii=False` (characters above
the control range are emitted raw). -/

/-- Lower-case hexadecimal digit for `n < 16`. -/
def hexDigitChar (n : Nat) : Char :=
  if n < 10 then Char.ofNat (48 + n) else Char.ofNat (87 + n)

/-- JSON string escaping of one character. -/
def escapeChar (c : Char) : List Char :=
  if c = '"' then ['\\', '"']
  else if c = '\\' then ['\\', '\\']
  else if c = '\n' then ['\\', 'n']
  else if c = '\t' then ['\\', 't']
  else if c = '\r' then ['\\', 'r']
  else if c.toNat = 8 then ['\\', 'b']
  else if c.toNat = 12 then ['\\', 'f']
  else if c.toNat < 32 then
    ['\\', 'u', '0', '0', hexDigitChar (c.toNat / 16), hexDigitChar (c.toNat % 16)]
  else [c]

/-- Decimal digits of a positive number, most significant first (`fuel`
bounds the recursion; `fuel = n` is always enough). -/
def natDigits : Nat → Nat → List Char
  | 0, _ => []
  | Nat.succ fuel, n =>
    if n = 0 then [] else natDigits fuel (n / 10) ++ [Char.ofNat (48 + n % 10)]

/-- Decimal digits of a natural number, most significant first. -/
def dumpNat (n : Nat) : List Char :=
  if n = 0 then ['0'] else natDigits n n

/-- Decimal rendering of an integer. -/
def dumpInt (i : Int) : List Char :=
  if i < 0 then '-' :: dumpNat i.natAbs else dumpNat i.natAbs

/-- A serialized JSON string literal (quotes included). -/
def dumpStr (s : String) : List Char :=
  '"' :: (s.data.flatMap escapeChar) ++ ['"']

mutual

/-- Serialized form of a JSON value (`json.dumps` with default separators). -/
def dumpVal : Json → List Char
  | Json.null => ['n', 'u', 'l', 'l']
  | Json.bool true => ['t', 'r', 'u', 'e']
  | Json.bool false => ['f', 'a', 'l', 's', 'e']
  | Json.num i => dumpInt i
  | Json.str s => dumpStr s
  | Json.arr [] => ['[', ']']
  | Json.arr (x :: xs) => '[' :: (dumpVal x ++ dumpElems xs) ++ [']']
  | Json.obj [] => [Char.ofNat 123, Char.ofNat 125]
  | Json.obj (f :: fs) => Char.ofNat 123 :: (dumpField f ++ dumpFields fs) ++ [Char.ofNat 125]

/-- Remaining array elements, each preceded by `", "`. -/
def dumpElems : List Json → List Char
  | [] => []
  | x :: xs => ',' :: ' ' :: (dumpVal x ++ dumpElems xs)

/-- One object member `"key": value`. -/
def dumpField : String × Json → List Char
  | (k, v) => dumpStr k ++ ':' :: ' ' :: dumpVal v

/-- Remaining object members, each preceded by `", "`. -/
def dumpFields : List (String × Json) → List Char
  | [] => []
  | f :: fs => ',' :: ' ' :: (dumpField f ++ dumpFields fs)

end

/-- `json.dumps` on a value. -/
def dumps (j : Json) : String := String.mk (dumpVal j)

/-! ### Parsing: model of `json.loads` -/

/-- JSON insignificant whitespace. -/
def isJsonWs (c : Char) : Bool :=
  c == ' ' || c == '\t' || c == '\n' || c == '\r'

/-- Skip insignificant whitespace. -/
def skipWs (l : List Char) : List Char := l.dropWhile isJsonWs

/-- Value of a hexadecimal digit character. -/
def hexVal (c : Char) : Option Nat :=
  if 48 ≤ c.toNat ∧ c.toNat ≤ 57 then some (c.toNat - 48)
  else if 97 ≤ c.toNat ∧ c.toNat ≤ 102 then some (c.toNat - 87)
  else if 65 ≤ c.toNat ∧ c.toNat ≤ 70 then some (c.toNat - 55)
  else none

/-- Decimal digit test. -/
def isDigitChar (c : Char) : Bool := 48 ≤ c.toNat && c.toNat ≤ 57

/-- Value of four hexadecimal digits. -/
def hex4 (a b c d : Char) : Option Nat :=
  match hexVal a, hexVal b, hexVal c, hexVal d with
  | some ha, some hb, some hc, some hd =>
    some (((ha * 16 + hb) * 16 + hc) * 16 + hd)
  | _, _, _, _ => none

mutual

/-- Body of a JSON string literal after the opening quote: decoded
characters plus the input remaining after the closing quote. -/
def parseStringBody : List Char → Option (List Char × List Char)
  | [] => none
  | c :: rest =>
    if c = '"' then some ([], rest)
    else if c = '\\' then parseEscape rest
    else if c.toNat < 32 then none
    else (parseStringBody rest).map (fun sr => (c :: sr.1, sr.2))

/-- An escape sequence after the backslash. -/
def parseEscape : List Char → Option (List Char × List Char)
  | [] => none
  | e :: rest =>
    if e = '"' then (parseStringBody rest).map (fun sr => ('"' :: sr.1, sr.2))
    else if e = '\\' then (parseStringBody rest).map (fun sr => ('\\' :: sr.1, sr.2))
    else if e = '/' then (parseStringBody rest).map (fun sr => ('/' :: sr.1, sr.2))
    else if e = 'n' then (parseStringBody rest).map (fun sr => ('\n' :: sr.1, sr.2))
    else if e = 't' then (parseStringBody rest).map (fun sr => ('\t' :: sr.1, sr.2))
    else if e = 'r' then (parseStringBody rest).map (fun sr => ('\r' :: sr.1, sr.2))
    else if e = 'b' then (parseStringBody rest).map (fun sr => (Char.ofNat 8 :: sr.1, sr.2))
    else if e = 'f' then (parseStringBody rest).map (fun sr => (Char.ofNat 12 :: sr.1, sr.2))
    else if e = 'u' then
      match rest with
      | a :: b :: c :: d :: rest2 =>
        match hex4 a b c d with
        | some n =>
          if n < 55296 then
            (parseStringBody rest2).map (fun sr => (Char.ofNat n :: sr.1, sr.2))
          else none
        | none => none
      | _ => none
    else none

end

/-- Consume an expected literal. -/
def dropLit : List Char → List Char → Option (List Char)
  | [], l => some l
  | _ :: _, [] => none
  | p :: ps, c :: cs => if c = p then dropLit ps cs else none

/-- The digit run at the head of the input: its value and the rest
(leading zeros rejected, as Python does; a fractional or exponent part is
rejected — the integer fragment). -/
def parseNat (l1 : List Char) : Option (Nat × List Char) :=
  let ds := l1.takeWhile isDigitChar
  let rest := l1.dropWhile isDigitChar
  if ds.isEmpty then none
  else if 1 < ds.length ∧ ds.head? = some '0' then none
  else
    match rest with
    | '.' :: _ => none
    | 'e' :: _ => none
    | 'E' :: _ => none
    | _ => some (ds.foldl (fun a c => a * 10 + (c.toNat - 48)) 0, rest)

/-- A JSON number (integer fragment). -/
def parseNumber (l : List Char) : Option (Json × List Char) :=
  match l with
  | '-' :: l1 => (parseNat l1).map (fun nr => (Json.num (-(nr.1 : Int)), nr.2))
  | _ => (parseNat l).map (fun nr => (Json.num ((nr.1 : Nat) : Int), nr.2))

mutual

/-- One JSON value (recursive descent, `fuel` bounds the recursion depth). -/
def parseValue : Nat → List Char → Option (Json × List Char)
  | 0, _ => none
  | Nat.succ fuel, l =>
    match skipWs l with
    | [] => none
    | c :: rest =>
      if c = '"' then
        (parseStringBody rest).map (fun sr => (Json.str (String.mk sr.1), sr.2))
      else if c = '[' then
        match skipWs rest with
        | ']' :: r2 => some (Json.arr [], r2)
        | _ => parseElems fuel rest []
      else if c = Char.ofNat 123 then
        match skipWs rest with
        | r0 :: r2 => if r0 = Char.ofNat 125 then some (Json.obj [], r2)
                      else parseMembers fuel rest []
        | [] => parseMembers fuel rest []
      else if c = 'n' then
        (dropLit ['u', 'l', 'l'] rest).map (fun r => (Json.null, r))
      else if c = 't' then
        (dropLit ['r', 'u', 'e'] rest).map (fun r => (Json.bool true, r))
      else if c = 'f' then
        (dropLit ['a', 'l', 's', 'e'] rest).map (fun r => (Json.bool false, r))
      else parseNumber (c :: rest)

/-- Array elements after `[`, accumulating parsed values. -/
def parseElems : Nat → List Char → List Json → Option (Json × List Char)
  | 0, _, _ => none
  | Nat.succ fuel, l, acc =>
    match parseValue fuel l with
    | none => none
    | some (v, r) =>
      match skipWs r with
      | ',' :: r2 => parseElems fuel r2 (acc ++ [v])
      | ']' :: r2 => some (Json.arr (acc ++ [v]), r2)
      | _ => none

/-- Object members after the opening brace, accumulating parsed pairs
(later duplicates overwrite, as in a Python dict). -/
def parseMembers : Nat → List Char → List (String × Json) →
    Option (Json × List Char)
  | 0, _, _ => none
  | Nat.succ fuel, l, acc =>
    match skipWs l with
    | '"' :: r =>
      match parseStringBody r with
      | none => none
      | some (k, r2) =>
        match skipWs r2 with
        | ':' :: r3 =>
          match parseValue fuel r3 with
          | none => none
          | some (v, r4) =>
            let acc2 := dictInsert acc (String.mk k) v
            match skipWs r4 with
            | ',' :: r5 => parseMembers fuel r5 acc2
            | r0 :: r5 =>
              if r0 = Char.ofNat 125 then some (Json.obj acc2, r5) else none
            | [] => none
        | _ => none
    | _ => none

end

/-- `json.loads`: parse a complete document, allowing surrounding
whitespace only. -/
def loads (s : String) : Option Json :=
  match parseValue (s.length + 1) s.data with
  | some (v, rest) => if (skipWs rest).isEmpty then some v else none
  | none => none

/-! ### Model of the reply cleaning in `run_analysis_agent`
`analysis_response.text.strip().replace("```json", "").replace("```", "")`. -/

/-- Python `str.strip()` whitespace (ASCII fragment). -/
def isPyWs (c : Char) : Bool :=
  c == ' ' || c == '\t' || c == '\n' || c == '\r' ||
    c.toNat == 11 || c.toNat == 12

/-- Python `str.strip()`. -/
def pyStrip (l : List Char) : List Char :=
  ((l.dropWhile isPyWs).reverse.dropWhile isPyWs).reverse

/-- Python `str.replace(pat, "")` for a non-empty `pat`: delete every
occurrence of `pat`, scanning left to right, in a single pass (`fuel`
bounds the recursion; the input length is always enough). -/
def removeOccsF (pat : List Char) : Nat → List Char → List Char
  | _, [] => []
  | 0, l => l
  | Nat.succ fuel, c :: rest =>
    if pat.isPrefixOf (c :: rest) then
      removeOccsF pat fuel (rest.drop (pat.length - 1))
    else c :: removeOccsF pat fuel rest

/-- Python `str.replace(pat, "")` for a non-empty `pat`. -/
def removeOccs (pat l : List Char) : List Char := removeOccsF pat l.length l

/-- The markdown-fence cleaning applied to the first model reply
(agent.py lines 129-133). -/
def stripFences (s : String) : String :=
  String.mk (removeOccs "```".data (removeOccs "```json".data (pyStrip s.data)))

/-! ## Embedding of src/backend/agent.py -/

namespace Agent

/-- One entry of `response.candidates[0].content.parts`: either a part
carrying a `function_call` (a tool name plus named string arguments, a
Python dict, so keys are unique) or a part without one. -/
inductive Part where
  | text (s : String)
  | call (name : String) (args : List (String × String))
deriving Repr

/-- The Firestore writes performed so far (collection `users/{uid}/analyses`). -/
structure Vault where
  writes : List (String × Json)
deriving Repr

/-- Oracles for the external collaborators of agent.py.  The two
`generate_content` calls are functions of the only varying data embedded in
their prompts (the document text, resp. the cleaned analysis string and the
user id); `dbAdd` is the Firestore `collection(...).add`, returning the new
document id or the message of a raised exception; `jsonErrMsg` renders a
`json.JSONDecodeError` for a given input string. -/
structure AgentEnv where
  analysisText : String → String
  toolParts : String → String → List Part
  dbAdd : String → Json → Except String String
  jsonErrMsg : String → String

/-- A single-quote character, used inside confirmation strings. -/
def sq : String := String.mk [Char.ofNat 39]

/-- agent.py `save_analysis_to_vault`: decode `analysis_data`, add it to the
per-user collection, and return a confirmation; any raised exception is
caught and rendered as an error-describing string (the function never
raises). -/
def save_analysis_to_vault (env : AgentEnv) (st : Vault)
    (user_id analysis_data : String) : Vault × String :=
  match loads analysis_data with
  | none =>
    (st, "Error: Could not save the analysis. Details: " ++
      env.jsonErrMsg analysis_data)
  | some d =>
    match env.dbAdd user_id d with
    | Except.ok docId =>
      (⟨st.writes ++ [(user_id, d)]⟩,
        "Successfully saved analysis with document ID: " ++ docId)
    | Except.error e =>
      (st, "Error: Could not save the analysis. Details: " ++ e)

/-- agent.py `schedule_follow_up_event`: placeholder returning a fixed-shape
confirmation; no side effect. -/
def schedule_follow_up_event (summary description date : String) : String :=
  "Confirmation: An event named " ++ sq ++ summary ++ sq ++
    " was scheduled for " ++ date ++ "."

/-- First argument value bound to `k`. -/
def lookupArg (args : List (String × String)) (k : String) : Option String :=
  (args.find? (fun kv => kv.1 == k)).map Prod.snd

/-- Python keyword binding `save_analysis_to_vault(**args)`: both required
parameters present and no unexpected keyword, else the call raises
`TypeError`. -/
def bindSave (args : List (String × String)) : Option (String × String) :=
  match lookupArg args "user_id", lookupArg args "analysis_data" with
  | some u, some a =>
    if args.all (fun kv => kv.1 == "user_id" || kv.1 == "analysis_data") then
      some (u, a)
    else none
  | _, _ => none

/-- Python keyword binding `schedule_follow_up_event(**args)`. -/
def bindSchedule (args : List (String × String)) :
    Option (String × String × String) :=
  match lookupArg args "summary", lookupArg args "description",
      lookupArg args "date" with
  | some s, some d, some dt =>
    if args.all (fun kv =>
        kv.1 == "summary" || kv.1 == "description" || kv.1 == "date") then
      some (s, d, dt)
    else none
  | _, _, _ => none

/-- Rendering of the `TypeError` raised when `**args` does not bind. -/
def typeErrorMsg : String := "TypeError: arguments do not match the signature"

/-- The Step 3 loop of `run_analysis_agent` (agent.py lines 162-184):
iterate the parts in order; skip parts without a `function_call`; on a
matching name invoke the tool and append its returned string to
`actions_taken`; skip unknown names silently.  A raised exception aborts
the loop, keeping the state already produced. -/
def dispatchTools (env : AgentEnv) (st : Vault) :
    List Part → Vault × Except String (List String)
  | [] => (st, Except.ok [])
  | Part.text _ :: rest => dispatchTools env st rest
  | Part.call name args :: rest =>
    if name == "save_analysis_to_vault" then
      match bindSave args with
      | none => (st, Except.error typeErrorMsg)
      | some ua =>
        let (st', r) := save_analysis_to_vault env st ua.1 ua.2
        match dispatchTools env st' rest with
        | (st'', Except.ok rs) => (st'', Except.ok (r :: rs))
        | (st'', Except.error e) => (st'', Except.error e)
    else if name == "schedule_follow_up_event" then
      match bindSchedule args with
      | none => (st, Except.error typeErrorMsg)
      | some sdd =>
        let r := schedule_follow_up_event sdd.1 sdd.2.1 sdd.2.2
        match dispatchTools env st rest with
        | (st'', Except.ok rs) => (st'', Except.ok (r :: rs))
        | (st'', Except.error e) => (st'', Except.error e)
    else dispatchTools env st rest

/-- The value returned by a successful `run_analysis_agent`. -/
structure AgentResult where
  analysis : Json
  actions_taken : List String
deriving Repr

/-- agent.py `run_analysis_agent`: first model call, fence cleaning, second
model call with tools, the dispatch loop, and only then `json.loads` on the
cleaned first reply (line 189).  The returned `Vault` is the Firestore state
when the function returns or raises. -/
def run_analysis_agent (env : AgentEnv) (st : Vault)
    (user_id document_text : String) : Vault × Except String AgentResult :=
  let analysis_json_string := stripFences (env.analysisText document_text)
  let parts := env.toolParts analysis_json_string user_id
  match dispatchTools env st parts with
  | (st', Except.error e) => (st', Except.error e)
  | (st', Except.ok actions) =>
    match loads analysis_json_string with
    | none => (st', Except.error (env.jsonErrMsg analysis_json_string))
    | some j => (st', Except.ok ⟨j, actions⟩)

end Agent

/-! ## Embedding of src/backend/app.py -/

namespace App

/-- Oracles for the external collaborators of app.py: the Gemini call of
`analyze_document_with_gemini` (a function of the document value embedded in
the prompt), the Firestore `add`, the construction
`Flow.from_client_secrets_file` (which raises when the secrets file is
unavailable), and the rendering of a `json.JSONDecodeError`. -/
structure AppEnv where
  gemini : Json → Except String String
  dbAdd : String → Json → Except String String
  flowInit : Except String Unit
  jsonErrMsg : String → String

/-- Observable state of one app.py request: the document values sent to the
model and the Firestore writes performed. -/
structure AppState where
  geminiCalls : List Json
  writes : List (String × Json)
deriving Repr

/-- An HTTP response: status code and JSON body. -/
structure HttpResponse where
  status : Nat
  body : Json
deriving Repr

/-- app.py `analyze_document_with_gemini`: one model call; the reply text,
or a raised exception. -/
def analyze_document_with_gemini (env : AppEnv) (st : AppState)
    (document_text : Json) : AppState × Except String String :=
  (⟨st.geminiCalls ++ [document_text], st.writes⟩, env.gemini document_text)

/-- app.py `save_analysis_to_vault`: add the analysis under
`users/{user_id}/analyses` and return the new document id; any raised
exception is caught and `None` is returned. -/
def save_analysis_to_vault (env : AppEnv) (st : AppState)
    (user_id : String) (analysis_data : Json) : AppState × Option String :=
  match env.dbAdd user_id analysis_data with
  | Except.ok docId =>
    (⟨st.geminiCalls, st.writes ++ [(user_id, analysis_data)]⟩, some docId)
  | Except.error _ => (st, none)

/-- app.py `create_calendar_event`: builds the OAuth flow, then returns a
placeholder confirmation without creating any event; a raised exception is
caught and `None` is returned. -/
def create_calendar_event (env : AppEnv)
    (summary _description event_date : String) : Option String :=
  match env.flowInit with
  | Except.ok _ =>
    some ("Placeholder: Event " ++ Agent.sq ++ summary ++ Agent.sq ++
      " would be created for " ++ event_date ++ ".")
  | Except.error _ => none

/-- Body of the 400 reply of `/analyze`. -/
def missingTextBody : Json :=
  Json.obj [("error",
    Json.str ("Invalid request: " ++ Agent.sq ++ "text" ++ Agent.sq ++
      " field is missing."))]

/-- Body of a 500 reply of `/analyze`. -/
def failureBody (details : String) : Json :=
  Json.obj [("error", Json.str "Failed to analyze document."),
    ("details", Json.str details)]

/-- app.py `analyze_endpoint` (`POST /analyze`): validate the body, call the
model, decode its reply, save to the vault, optionally tag the response with
`vault_document_id`, and return the analysis JSON itself; every exception of
the `try` block is converted to a 500 response.  `body` is
`request.get_json()` (`none` when the request carries no JSON). -/
def analyze_endpoint (env : AppEnv) (st : AppState) (body : Option Json) :
    AppState × HttpResponse :=
  match body with
  | none => (st, ⟨400, missingTextBody⟩)
  | some data =>
    if !pyTruthy data || !jsonHasKey data "text" then
      (st, ⟨400, missingTextBody⟩)
    else
      let document_text := jsonGet data "text"
      let (st1, g) := analyze_document_with_gemini env st document_text
      match g with
      | Except.error e => (st1, ⟨500, failureBody e⟩)
      | Except.ok analysis_result_text =>
        match loads analysis_result_text with
        | none =>
          (st1, ⟨500, failureBody (env.jsonErrMsg analysis_result_text)⟩)
        | some analysis_json =>
          let (st2, document_id) :=
            save_analysis_to_vault env st1 "user_12345" analysis_json
          match document_id with
          | some docId =>
            if docId == "" then (st2, ⟨200, analysis_json⟩)
            else
              match analysis_json with
              | Json.obj fs =>
                (st2, ⟨200, Json.obj
                  (dictInsert fs "vault_document_id" (Json.str docId))⟩)
              | _ =>
                (st2, ⟨500, failureBody
                  "TypeError: object does not support item assignment"⟩)
          | none => (st2, ⟨200, analysis_json⟩)

end App

/-! ## Spec-side definitions (for refinement comparisons) -/

/-- Modelled from the spec: a Clause-Finding of §3 — `clause_summary`,
`risk_level` in the enumeration Red/Amber/Green, `explanation` and
`action_suggestion`, all text. -/
def clauseFindingShape (j : Json) : Bool :=
  match j with
  | Json.obj fs =>
    (match getField fs "clause_summary" with
      | some (Json.str _) => true
      | _ => false) &&
    (match getField fs "risk_level" with
      | some (Json.str s) => s == "Red" || s == "Amber" || s == "Green"
      | _ => false) &&
    (match getField fs "explanation" with
      | some (Json.str _) => true
      | _ => false) &&
    (match getField fs "action_suggestion" with
      | some (Json.str _) => true
      | _ => false)
  | _ => false

/-- Modelled from the spec: the Analysis shape of §3/§6 — an object with a
text `summary` and a `risk_analysis` array of Clause-Findings. -/
def analysisShape (j : Json) : Bool :=
  match j with
  | Json.obj fs =>
    (match getField fs "summary" with
      | some (Json.str _) => true
      | _ => false) &&
    (match getField fs "risk_analysis" with
      | some (Json.arr items) => items.all clauseFindingShape
      | _ => false)
  | _ => false

namespace Agent

/-- A part whose `function_call` names one of the two table entries. -/
def matchedCall : Part → Bool
  | Part.call n _ =>
    n == "save_analysis_to_vault" || n == "schedule_follow_up_event"
  | Part.text _ => false

/-- The binding of a part succeeds (vacuous for parts the loop skips). -/
def bindsOk : Part → Bool
  | Part.call n args =>
    if n == "save_analysis_to_vault" then (bindSave args).isSome
    else if n == "schedule_follow_up_event" then (bindSchedule args).isSome
    else true
  | Part.text _ => true

/-- Modelled from the spec: the fixed dispatch table of exactly two entries
(persistence, calendar), mapping a tool name to its semantic action. -/
def specTable (env : AgentEnv) :
    List (String × (Vault → List (String × String) → Option (Vault × String))) :=
  [("save_analysis_to_vault", fun st args =>
      (bindSave args).map (fun ua => save_analysis_to_vault env st ua.1 ua.2)),
   ("schedule_follow_up_event", fun st args =>
      (bindSchedule args).map (fun sdd =>
        (st, schedule_follow_up_event sdd.1 sdd.2.1 sdd.2.2)))]

/-- Modelled from the spec (§4.1 Step 3): iterate the proposed tool calls in
the order the model listed them; look each name up in the fixed two-entry
table; on a hit invoke the entry with the model-supplied named arguments and
collect the returned confirmation string; on a miss skip silently. -/
def specConfirmations (env : AgentEnv) (st : Vault) :
    List Part → Vault × List String
  | [] => (st, [])
  | Part.text _ :: rest => specConfirmations env st rest
  | Part.call name args :: rest =>
    match List.lookup name (specTable env) with
    | none => specConfirmations env st rest
    | some f =>
      match f st args with
      | none => specConfirmations env st rest
      | some (st', conf) =>
        let (st'', confs) := specConfirmations env st' rest
        (st'', conf :: confs)

end Agent

/-- Modelled from claim C10's wording: `r` with every occurrence of the two
fence substrings removed (and nothing else). -/
def claimStrip (r : String) : String :=
  String.mk (removeOccs "```".data (removeOccs "```json".data r.data))

/-- A backtick character. -/
def btick : Char := Char.ofNat 96

/-- No three consecutive backticks occur. -/
def tripleFree : List Char → Bool
  | c1 :: c2 :: c3 :: rest =>
    if c1 == btick && c2 == btick && c3 == btick then false
    else tripleFree (c2 :: c3 :: rest)
  | _ => true

/-- Length of the maximal backtick run at the head. -/
def leadTicks : List Char → Nat
  | [] => 0
  | c :: rest => if c == btick then leadTicks rest + 1 else 0

/-- Key list without duplicates. -/
def nodupKeys : List String → Bool
  | [] => true
  | k :: ks => !(ks.any (fun a => a == k)) && nodupKeys ks

mutual

/-- Well-formed JSON value: object keys are distinct at every level (any
value decoded from text, where a Python dict cannot hold duplicate keys). -/
def wellFormed : Json → Bool
  | Json.null => true
  | Json.bool _ => true
  | Json.num _ => true
  | Json.str _ => true
  | Json.arr xs => wellFormedList xs
  | Json.obj fs => nodupKeys (fs.map Prod.fst) && wellFormedFields fs

/-- All elements well formed. -/
def wellFormedList : List Json → Bool
  | [] => true
  | x :: xs => wellFormed x && wellFormedList xs

/-- All member values well formed. -/
def wellFormedFields : List (String × Json) → Bool
  | [] => true
  | f :: fs => wellFormed f.2 && wellFormedFields fs

end

/-! ## Parser fuel measure (for the round-trip proof) -/

mutual

/-- Enough fuel for `parseValue` on the serialized form of a value. -/
def pfuel : Json → Nat
  | Json.null => 1
  | Json.bool _ => 1
  | Json.num _ => 1
  | Json.str _ => 1
  | Json.arr [] => 1
  | Json.arr (x :: xs) => 1 + pfuelElems (x :: xs)
  | Json.obj [] => 1
  | Json.obj (f :: fs) => 1 + pfuelMembers (f :: fs)

/-- Enough fuel for `parseElems` on serialized elements. -/
def pfuelElems : List Json → Nat
  | [] => 0
  | x :: xs => 1 + max (pfuel x) (pfuelElems xs)

/-- Enough fuel for `parseMembers` on serialized members. -/
def pfuelMembers : List (String × Json) → Nat
  | [] => 0
  | f :: fs => 1 + max (pfuel f.2) (pfuelMembers fs)

end

/-- The characters that may legally follow a serialized value inside a
larger serialized document (or the end of input). -/
def okDelim : List Char → Prop
  | [] => True
  | c :: _ => c = ',' ∨ c = ']' ∨ c = Char.ofNat 125

/-! ## Concrete oracle environments used by witnesses and counterexamples -/

/-- Model replies: a fenced empty JSON object, no tool calls. -/
def agentEnvEmptyObj : Agent.AgentEnv :=
  ⟨fun _ => "```json" ++ "\n\x7b\x7d\n" ++ "```", fun _ _ => [],
   fun _ _ => Except.ok "doc1", fun _ => "invalid json"⟩

/-- Model replies: a valid analysis, and one persistence call whose
arguments do not match the tool's parameters. -/
def agentEnvBadArgs : Agent.AgentEnv :=
  ⟨fun _ => "\x7b\"summary\": \"s\", \"risk_analysis\": []\x7d",
   fun _ _ => [Agent.Part.call "save_analysis_to_vault" []],
   fun _ _ => Except.ok "doc1", fun _ => "invalid json"⟩

/-- Model replies: a valid analysis, one persistence call and one calendar
call, both with well-formed arguments. -/
def agentEnvBoth : Agent.AgentEnv :=
  ⟨fun _ => "\x7b\"summary\": \"s\", \"risk_analysis\": []\x7d",
   fun _ _ =>
     [Agent.Part.call "save_analysis_to_vault"
        [("user_id", "u1"), ("analysis_data", "\x7b\x7d")],
      Agent.Part.call "schedule_follow_up_event"
        [("summary", "Review"), ("description", "d"), ("date", "2025-01-01")]],
   fun _ _ => Except.ok "doc1", fun _ => "invalid json"⟩

/-- Model replies: a reply that is not JSON, and one persistence call with
well-formed arguments. -/
def agentEnvNotJson : Agent.AgentEnv :=
  ⟨fun _ => "I am sorry, I cannot help with that.",
   fun _ _ =>
     [Agent.Part.call "save_analysis_to_vault"
        [("user_id", "u1"), ("analysis_data", "\x7b\x7d")]],
   fun _ _ => Except.ok "doc1", fun _ => "invalid json"⟩

/-- Model replies: a valid analysis and a parts list with no function call. -/
def agentEnvTextPart : Agent.AgentEnv :=
  ⟨fun _ => "\x7b\"summary\": \"s\", \"risk_analysis\": []\x7d",
   fun _ _ => [Agent.Part.text "I will not call any tool."],
   fun _ _ => Except.ok "doc1", fun _ => "invalid json"⟩

/-- A Firestore that always raises on write. -/
def agentEnvDbFail : Agent.AgentEnv :=
  ⟨fun _ => "\x7b\"summary\": \"s\", \"risk_analysis\": []\x7d",
   fun _ _ => [], fun _ _ => Except.error "503 service unavailable",
   fun _ => "invalid json"⟩

/-- app.py oracles: a well-behaved model, Firestore and OAuth flow. -/
def appEnvOk : App.AppEnv :=
  ⟨fun _ => Except.ok "\x7b\"summary\": \"s\"\x7d",
   fun _ _ => Except.ok "fs1", Except.ok (), fun _ => "invalid json"⟩

/-- app.py oracles with a Firestore that always raises on write. -/
def appEnvDbFail : App.AppEnv :=
  ⟨fun _ => Except.ok "\x7b\"summary\": \"s\"\x7d",
   fun _ _ => Except.error "503 service unavailable", Except.ok (),
   fun _ => "invalid json"⟩

/-- app.py oracles where building the OAuth flow raises (no
`client_secret.json`). -/
def appEnvFlowFail : App.AppEnv :=
  ⟨fun _ => Except.ok "\x7b\"summary\": \"s\"\x7d",
   fun _ _ => Except.ok "fs1",
   Except.error "FileNotFoundError: client_secret.json", fun _ => "invalid json"⟩

/-! ## Helper lemmas -/

/-- The Step 3 loop skips every part that carries no function call and
leaves the state untouched. -/
theorem Agent.dispatchTools_all_text (env : Agent.AgentEnv) (st : Agent.Vault)
    (parts : List Agent.Part)
    (h : ∀ p ∈ parts, ∃ s, p = Agent.Part.text s) :
    Agent.dispatchTools env st parts = (st, Except.ok []) := by
  induction parts with
  | nil => rfl
  | cons p rest ih =>
    obtain ⟨s, rfl⟩ := h p (by simp)
    simpa [Agent.dispatchTools] using ih (fun q hq => h q (by simp [hq]))

/-! ## Claim theorems -/

/-- Claim C2, counterexample: the first reply strips to the empty JSON
object, which is valid JSON but not the Analysis shape (no `summary`, no
`risk_analysis`); `run_analysis_agent` does not fail — it returns the
value unvalidated. -/
theorem c2_counterexample :
    Agent.run_analysis_agent agentEnvEmptyObj ⟨[]⟩ "u1" "doc" =
      (⟨[]⟩, Except.ok ⟨Json.obj [], []⟩) ∧
    analysisShape (Json.obj []) = false := ⟨rfl, rfl⟩

/-- Claim C2 as amended: if the cleaned first reply is not valid JSON, the
run raises (a data-format error when the dispatch loop itself did not
raise first) and returns no result, with no retry; validity as JSON is the
only check performed. -/
theorem c2_parse_failure (env : Agent.AgentEnv) (st : Agent.Vault)
    (uid doc : String)
    (h : loads (stripFences (env.analysisText doc)) = none) :
    ∃ e, (Agent.run_analysis_agent env st uid doc).2 = Except.error e := by
  unfold Agent.run_analysis_agent
  rcases hd : Agent.dispatchTools env st
      (env.toolParts (stripFences (env.analysisText doc)) uid) with ⟨st', r⟩
  cases r with
  | error e => exact ⟨e, by simp [hd]⟩
  | ok as => exact ⟨env.jsonErrMsg (stripFences (env.analysisText doc)), by simp [hd, h]⟩

/-- Witness for `c2_parse_failure` at a concrete refusal reply. -/
theorem c2_parse_failure_witness :
    ∃ e, (Agent.run_analysis_agent agentEnvNotJson ⟨[]⟩ "u1" "doc").2 =
      Except.error e :=
  c2_parse_failure agentEnvNotJson ⟨[]⟩ "u1" "doc" rfl

/-- Claim C9: `json.loads` runs only after the dispatch loop (agent.py line
189 versus lines 162-184): when the cleaned reply is invalid JSON and the
loop completed, the returned Firestore state is the post-dispatch state —
every requested tool call has already run — and the collected
confirmations are discarded with the raised decode error. -/
theorem c9_parse_after_dispatch (env : Agent.AgentEnv) (st st' : Agent.Vault)
    (uid doc : String) (actions : List String)
    (h1 : loads (stripFences (env.analysisText doc)) = none)
    (h2 : Agent.dispatchTools env st
      (env.toolParts (stripFences (env.analysisText doc)) uid) =
        (st', Except.ok actions)) :
    Agent.run_analysis_agent env st uid doc =
      (st', Except.error (env.jsonErrMsg (stripFences (env.analysisText doc)))) := by
  unfold Agent.run_analysis_agent
  simp [h2, h1]

/-- Witness for `c9_parse_after_dispatch`: an invalid reply together with a
persistence call — the write lands in the vault, the confirmation is
discarded. -/
theorem c9_parse_after_dispatch_witness :
    Agent.run_analysis_agent agentEnvNotJson ⟨[]⟩ "u1" "doc" =
      (⟨[("u1", Json.obj [])]⟩,
        Except.error (agentEnvNotJson.jsonErrMsg
          (stripFences (agentEnvNotJson.analysisText "doc")))) :=
  c9_parse_after_dispatch agentEnvNotJson ⟨[]⟩ ⟨[("u1", Json.obj [])]⟩ "u1" "doc"
    ["Successfully saved analysis with document ID: doc1"] rfl rfl

/-- Claim C5: when the Firestore write raises, neither revision of the
persistence tool propagates the exception: agent.py's returns an
error-describing string, app.py's returns `None`; the state is unchanged
and the request as a whole does not fail. -/
theorem c5_swallow_db_error (env : Agent.AgentEnv) (appEnv : App.AppEnv)
    (st : Agent.Vault) (ast : App.AppState) (u ua a : String) (d da : Json)
    (e ea : String)
    (h1 : loads a = some d) (h2 : env.dbAdd u d = Except.error e)
    (h3 : appEnv.dbAdd ua da = Except.error ea) :
    Agent.save_analysis_to_vault env st u a =
      (st, "Error: Could not save the analysis. Details: " ++ e) ∧
    App.save_analysis_to_vault appEnv ast ua da = (ast, none) := by
  constructor
  · simp [Agent.save_analysis_to_vault, h1, h2]
  · simp [App.save_analysis_to_vault, h3]

/-- Witness for `c5_swallow_db_error` at concrete failing oracles. -/
theorem c5_swallow_db_error_witness :
    Agent.save_analysis_to_vault agentEnvDbFail ⟨[]⟩ "u1" "\x7b\x7d" =
      (⟨[]⟩,
        "Error: Could not save the analysis. Details: 503 service unavailable") ∧
    App.save_analysis_to_vault appEnvDbFail ⟨[], []⟩ "u1" Json.null =
      (⟨[], []⟩, none) :=
  c5_swallow_db_error agentEnvDbFail appEnvDbFail ⟨[]⟩ ⟨[], []⟩ "u1" "u1"
    "\x7b\x7d" (Json.obj []) Json.null "503 service unavailable"
    "503 service unavailable" rfl rfl rfl

/-- Claim C6, counterexample: in the app.py revision the calendar tool does
not return a confirmation string when building the OAuth flow raises — it
returns `None`. -/
theorem c6_counterexample :
    App.create_calendar_event appEnvFlowFail "Review contract" "d" "2025-01-01" =
      none := rfl

/-- Claim C6 as amended: the agent.py calendar tool always returns the
fixed-shape confirmation embedding summary and date and performs no side
effect; the app.py revision returns its placeholder confirmation embedding
summary and date whenever the OAuth flow construction does not raise (and
`None` when it does, per the counterexample). -/
theorem c6_placeholder (env : App.AppEnv) (s d dt : String)
    (h : env.flowInit = Except.ok ()) :
    Agent.schedule_follow_up_event s d dt =
      "Confirmation: An event named " ++ Agent.sq ++ s ++ Agent.sq ++
        " was scheduled for " ++ dt ++ "." ∧
    App.create_calendar_event env s d dt =
      some ("Placeholder: Event " ++ Agent.sq ++ s ++ Agent.sq ++
        " would be created for " ++ dt ++ ".") := by
  constructor
  · rfl
  · simp [App.create_calendar_event, h]

/-- Witness for `c6_placeholder` at concrete inputs. -/
theorem c6_placeholder_witness :
    Agent.schedule_follow_up_event "Review" "d" "2025-01-01" =
      "Confirmation: An event named " ++ Agent.sq ++ "Review" ++ Agent.sq ++
        " was scheduled for " ++ "2025-01-01" ++ "." ∧
    App.create_calendar_event appEnvOk "Review" "d" "2025-01-01" =
      some ("Placeholder: Event " ++ Agent.sq ++ "Review" ++ Agent.sq ++
        " would be created for " ++ "2025-01-01" ++ ".") :=
  c6_placeholder appEnvOk "Review" "d" "2025-01-01" rfl

/-- Claim C7: when the model's tool-selection reply carries no function
call, the run returns an empty `actions_taken`, the vault is untouched, and
no tool runs. -/
theorem c7_no_tools (env : Agent.AgentEnv) (st : Agent.Vault)
    (uid doc : String) (j : Json)
    (h1 : loads (stripFences (env.analysisText doc)) = some j)
    (h2 : ∀ p ∈ env.toolParts (stripFences (env.analysisText doc)) uid,
      ∃ s, p = Agent.Part.text s) :
    Agent.run_analysis_agent env st uid doc = (st, Except.ok ⟨j, []⟩) := by
  unfold Agent.run_analysis_agent
  simp [Agent.dispatchTools_all_text env st _ h2, h1]

/-- Witness for `c7_no_tools` at a concrete no-tool reply. -/
theorem c7_no_tools_witness :
    Agent.run_analysis_agent agentEnvTextPart ⟨[]⟩ "u1" "doc" =
      (⟨[]⟩, Except.ok
        ⟨Json.obj [("summary", Json.str "s"), ("risk_analysis", Json.arr [])],
          []⟩) :=
  c7_no_tools agentEnvTextPart ⟨[]⟩ "u1" "doc"
    (Json.obj [("summary", Json.str "s"), ("risk_analysis", Json.arr [])]) rfl
    (fun p hp => ⟨"I will not call any tool.", List.mem_singleton.mp hp⟩)

/-- Claim C1, counterexample: a reply whose single proposed call names the
persistence tool but supplies no arguments makes the loop raise
`TypeError` — `run_analysis_agent` produces no `actions_taken` at all, so
the dispatch is not unconditionally exception-free. -/
theorem c1_counterexample :
    Agent.matchedCall (Agent.Part.call "save_analysis_to_vault" []) = true ∧
    Agent.run_analysis_agent agentEnvBadArgs ⟨[]⟩ "u1" "doc" =
      (⟨[]⟩, Except.error Agent.typeErrorMsg) := ⟨rfl, rfl⟩

/-- Claim C3, counterexample: a blank `text` passes validation — the
endpoint does not return 400; the pipeline runs (one model call, one vault
write) and the request succeeds. -/
theorem c3_counterexample :
    App.analyze_endpoint appEnvOk ⟨[], []⟩
        (some (Json.obj [("text", Json.str "")])) =
      (⟨[Json.str ""], [("user_12345", Json.obj [("summary", Json.str "s")])]⟩,
       ⟨200, Json.obj [("summary", Json.str "s"),
         ("vault_document_id", Json.str "fs1")]⟩) ∧
    (App.analyze_endpoint appEnvOk ⟨[], []⟩
        (some (Json.obj [("text", Json.str "")]))).2.status ≠ 400 ∧
    (App.analyze_endpoint appEnvOk ⟨[], []⟩
        (some (Json.obj [("text", Json.str "")]))).1.geminiCalls.length = 1 :=
  ⟨rfl, by decide, rfl⟩

/-- Claim C3 as amended: a missing `text` key (or a body that is absent or
falsy) yields 400 with an `error` field and the pipeline is not invoked
(state unchanged); a blank `text` is not rejected (see the
counterexample). -/
theorem c3_missing_text (env : App.AppEnv) (st : App.AppState)
    (body : Option Json)
    (h : body = none ∨ ∃ fs, body = some (Json.obj fs) ∧
      (fs = [] ∨ getField fs "text" = none)) :
    App.analyze_endpoint env st body = (st, ⟨400, App.missingTextBody⟩) ∧
    jsonHasKey App.missingTextBody "error" = true := by
  refine ⟨?_, rfl⟩
  rcases h with rfl | ⟨fs, rfl, hfs⟩
  · rfl
  · rcases hfs with rfl | hnone
    · rfl
    · simp [App.analyze_endpoint, pyTruthy, jsonHasKey, hnone]

/-- Witness for `c3_missing_text` at a body with no `text` key. -/
theorem c3_missing_text_witness :
    App.analyze_endpoint appEnvOk ⟨[], []⟩
        (some (Json.obj [("document", Json.str "hi")])) =
      (⟨[], []⟩, ⟨400, App.missingTextBody⟩) ∧
    jsonHasKey App.missingTextBody "error" = true :=
  c3_missing_text appEnvOk ⟨[], []⟩ (some (Json.obj [("document", Json.str "hi")]))
    (Or.inr ⟨[("document", Json.str "hi")], rfl, Or.inr rfl⟩)

/-- Claim C4, counterexample: a successful `/analyze` response is the
analysis JSON itself (tagged with `vault_document_id`), not an Agent
Result — it has neither an `analysis` nor an `actions_taken` field. -/
theorem c4_counterexample :
    (App.analyze_endpoint appEnvOk ⟨[], []⟩
        (some (Json.obj [("text", Json.str "hello")]))).2 =
      ⟨200, Json.obj [("summary", Json.str "s"),
        ("vault_document_id", Json.str "fs1")]⟩ ∧
    jsonHasKey (Json.obj [("summary", Json.str "s"),
      ("vault_document_id", Json.str "fs1")]) "analysis" = false ∧
    jsonHasKey (Json.obj [("summary", Json.str "s"),
      ("vault_document_id", Json.str "fs1")]) "actions_taken" = false :=
  ⟨rfl, rfl, rfl⟩

/-- Claim C10, counterexample: the cleaning is not just occurrence removal —
`strip()` runs first, so a reply with surrounding whitespace differs from
the claim's equation. -/
theorem c10_counterexample :
    stripFences " a" = "a" ∧ claimStrip " a" = " a" ∧
    stripFences " a" ≠ claimStrip " a" := ⟨rfl, rfl, by decide⟩

/-- Under successful argument binding, the Step 3 loop of agent.py equals
the spec's table-driven dispatch, and produces exactly one confirmation per
listed call whose name matches the two-entry table (in listed order, one
run per occurrence, unknown names and plain parts skipped silently). -/
theorem Agent.dispatch_eq_spec (env : Agent.AgentEnv) (parts : List Agent.Part)
    (st : Agent.Vault)
    (h : ∀ p ∈ parts, Agent.bindsOk p = true) :
    Agent.dispatchTools env st parts =
      ((Agent.specConfirmations env st parts).1,
        Except.ok (Agent.specConfirmations env st parts).2) ∧
    (Agent.specConfirmations env st parts).2.length =
      parts.countP (fun p => Agent.matchedCall p) := by
  induction parts generalizing st with
  | nil => exact ⟨rfl, rfl⟩
  | cons p rest ih =>
    have hp := h p (List.mem_cons_self p rest)
    have hrest : ∀ q ∈ rest, Agent.bindsOk q = true :=
      fun q hq => h q (List.mem_cons_of_mem p hq)
    cases p with
    | text s =>
      obtain ⟨ih1, ih2⟩ := ih st hrest
      refine ⟨?_, ?_⟩
      · simpa [Agent.dispatchTools, Agent.specConfirmations] using ih1
      · simpa [Agent.specConfirmations, Agent.matchedCall, List.countP_cons]
          using ih2
    | call name args =>
      by_cases h1 : name = "save_analysis_to_vault"
      · subst h1
        simp [Agent.bindsOk] at hp
        obtain ⟨ua, hua⟩ := Option.isSome_iff_exists.mp hp
        rcases hsv : Agent.save_analysis_to_vault env st ua.1 ua.2 with ⟨st1, conf⟩
        rcases hspec : Agent.specConfirmations env st1 rest with ⟨st2, confs⟩
        obtain ⟨ih1, ih2⟩ := ih st1 hrest
        rw [hspec] at ih1 ih2
        have hs : Agent.specConfirmations env st
            (Agent.Part.call "save_analysis_to_vault" args :: rest) =
            (st2, conf :: confs) := by
          simp [Agent.specConfirmations, Agent.specTable, List.lookup, hua, hsv,
            hspec]
        refine ⟨?_, ?_⟩
        · rw [hs]
          simp [Agent.dispatchTools, hua, hsv, ih1]
        · rw [hs]
          simpa [List.countP_cons, Agent.matchedCall] using ih2
      · by_cases h2 : name = "schedule_follow_up_event"
        · subst h2
          simp [Agent.bindsOk] at hp
          obtain ⟨sdd, hsdd⟩ := Option.isSome_iff_exists.mp hp
          rcases hspec : Agent.specConfirmations env st rest with ⟨st2, confs⟩
          obtain ⟨ih1, ih2⟩ := ih st hrest
          rw [hspec] at ih1 ih2
          have hs : Agent.specConfirmations env st
              (Agent.Part.call "schedule_follow_up_event" args :: rest) =
              (st2, Agent.schedule_follow_up_event sdd.1 sdd.2.1 sdd.2.2 :: confs) := by
            simp [Agent.specConfirmations, Agent.specTable, List.lookup, hsdd,
              hspec]
          refine ⟨?_, ?_⟩
          · rw [hs]
            simp [Agent.dispatchTools, hsdd, ih1]
          · rw [hs]
            simpa [List.countP_cons, Agent.matchedCall] using ih2
        · have hb1 : (name == "save_analysis_to_vault") = false :=
            beq_eq_false_iff_ne.mpr h1
          have hb2 : (name == "schedule_follow_up_event") = false :=
            beq_eq_false_iff_ne.mpr h2
          obtain ⟨ih1, ih2⟩ := ih st hrest
          refine ⟨?_, ?_⟩
          · simpa [Agent.dispatchTools, hb1, hb2, Agent.specConfirmations,
              Agent.specTable, List.lookup] using ih1
          · simpa [Agent.specConfirmations, Agent.specTable, List.lookup, hb1,
              hb2, List.countP_cons, Agent.matchedCall] using ih2

/-- Claim C1 as amended: when the first reply parses and every matched
call's named arguments bind to the tool's parameters, `run_analysis_agent`
returns `actions_taken` exactly as the spec's table dispatch prescribes —
iterating the listed calls in order, one confirmation per occurrence of a
matched name (duplicates run once per occurrence), unknown names and parts
without a function call skipped silently with no entry; its length is the
number of matched calls.  A matched call whose arguments do not bind makes
the run raise instead (see the counterexample). -/
theorem c1_dispatch (env : Agent.AgentEnv) (st : Agent.Vault)
    (uid doc : String) (j : Json)
    (h1 : loads (stripFences (env.analysisText doc)) = some j)
    (h2 : ∀ p ∈ env.toolParts (stripFences (env.analysisText doc)) uid,
      Agent.bindsOk p = true) :
    Agent.run_analysis_agent env st uid doc =
      ((Agent.specConfirmations env st
          (env.toolParts (stripFences (env.analysisText doc)) uid)).1,
        Except.ok ⟨j,
          (Agent.specConfirmations env st
            (env.toolParts (stripFences (env.analysisText doc)) uid)).2⟩) ∧
    (Agent.specConfirmations env st
        (env.toolParts (stripFences (env.analysisText doc)) uid)).2.length =
      (env.toolParts (stripFences (env.analysisText doc)) uid).countP
        (fun p => Agent.matchedCall p) := by
  obtain ⟨hd, hlen⟩ := Agent.dispatch_eq_spec env _ st h2
  refine ⟨?_, hlen⟩
  unfold Agent.run_analysis_agent
  simp [hd, h1]

/-- Witness for `c1_dispatch`: a reply requesting both tools yields two
confirmations, in the listed order. -/
theorem c1_dispatch_witness :
    Agent.run_analysis_agent agentEnvBoth ⟨[]⟩ "u1" "doc" =
      ((Agent.specConfirmations agentEnvBoth ⟨[]⟩
          (agentEnvBoth.toolParts
            (stripFences (agentEnvBoth.analysisText "doc")) "u1")).1,
        Except.ok
          ⟨Json.obj [("summary", Json.str "s"), ("risk_analysis", Json.arr [])],
            (Agent.specConfirmations agentEnvBoth ⟨[]⟩
              (agentEnvBoth.toolParts
                (stripFences (agentEnvBoth.analysisText "doc")) "u1")).2⟩) ∧
    (Agent.specConfirmations agentEnvBoth ⟨[]⟩
        (agentEnvBoth.toolParts
          (stripFences (agentEnvBoth.analysisText "doc")) "u1")).2.length =
      (agentEnvBoth.toolParts
        (stripFences (agentEnvBoth.analysisText "doc")) "u1").countP
        (fun p => Agent.matchedCall p) :=
  c1_dispatch agentEnvBoth ⟨[]⟩ "u1" "doc"
    (Json.obj [("summary", Json.str "s"), ("risk_analysis", Json.arr [])]) rfl
    (by decide)

/-- Claim C4 as amended: every 200 response of the app.py `/analyze`
endpoint carries the decoded analysis value itself — possibly tagged with
`vault_document_id` when the vault write returned an id — not an Agent
Result wrapper; the `{analysis, actions_taken}` shape exists only in
agent.py's `run_analysis_agent` return value (see the counterexample for a
concrete 200 response without those fields). -/
theorem c4_success_shape (env : App.AppEnv) (st st' : App.AppState)
    (body : Option Json) (resp : App.HttpResponse)
    (h : App.analyze_endpoint env st body = (st', resp))
    (h200 : resp.status = 200) :
    ∃ txt aj, loads txt = some aj ∧
      (resp.body = aj ∨
        ∃ fs docId, aj = Json.obj fs ∧
          resp.body = Json.obj (dictInsert fs "vault_document_id" (Json.str docId))) := by
  cases body with
  | none =>
    simp only [App.analyze_endpoint] at h
    cases h
    simp [App.HttpResponse.status] at h200
  | some data =>
    simp only [App.analyze_endpoint] at h
    by_cases ht : (!pyTruthy data || !jsonHasKey data "text") = true
    · rw [if_pos ht] at h
      cases h
      simp [App.HttpResponse.status] at h200
    · rw [if_neg ht] at h
      simp only [App.analyze_document_with_gemini] at h
      cases hg : env.gemini (jsonGet data "text") with
      | error e =>
        rw [hg] at h
        dsimp only at h
        cases h
        simp [App.HttpResponse.status] at h200
      | ok txt =>
        rw [hg] at h
        dsimp only at h
        cases hl : loads txt with
        | none =>
          rw [hl] at h
          dsimp only at h
          cases h
          simp [App.HttpResponse.status] at h200
        | some aj =>
          rw [hl] at h
          simp only [App.save_analysis_to_vault] at h
          cases hdb : env.dbAdd "user_12345" aj with
          | error e =>
            rw [hdb] at h
            dsimp only at h
            cases h
            exact ⟨txt, aj, hl, Or.inl rfl⟩
          | ok docId =>
            rw [hdb] at h
            dsimp only at h
            by_cases hid : (docId == "") = true
            · rw [if_pos hid] at h
              cases h
              exact ⟨txt, aj, hl, Or.inl rfl⟩
            · rw [if_neg hid] at h
              cases aj with
              | obj fs =>
                cases h
                exact ⟨txt, Json.obj fs, hl, Or.inr ⟨fs, docId, rfl, rfl⟩⟩
              | null => cases h; simp [App.HttpResponse.status] at h200
              | bool b => cases h; simp [App.HttpResponse.status] at h200
              | num n => cases h; simp [App.HttpResponse.status] at h200
              | str s => cases h; simp [App.HttpResponse.status] at h200
              | arr l => cases h; simp [App.HttpResponse.status] at h200

/-- Witness for `c4_success_shape` at a concrete successful request. -/
theorem c4_success_shape_witness :
    ∃ txt aj, loads txt = some aj ∧
      ((App.analyze_endpoint appEnvOk ⟨[], []⟩
          (some (Json.obj [("text", Json.str "hello")]))).2.body = aj ∨
        ∃ fs docId, aj = Json.obj fs ∧
          (App.analyze_endpoint appEnvOk ⟨[], []⟩
            (some (Json.obj [("text", Json.str "hello")]))).2.body =
            Json.obj (dictInsert fs "vault_document_id" (Json.str docId))) :=
  c4_success_shape appEnvOk ⟨[], []⟩
    ⟨[Json.str "hello"], [("user_12345", Json.obj [("summary", Json.str "s")])]⟩
    (some (Json.obj [("text", Json.str "hello")]))
    ⟨200, Json.obj [("summary", Json.str "s"),
      ("vault_document_id", Json.str "fs1")]⟩ rfl rfl

/-- Unfolding of `leadTicks` on a cons. -/
theorem leadTicks_cons (c : Char) (l : List Char) :
    leadTicks (c :: l) = if c == btick then leadTicks l + 1 else 0 := rfl

/-- Extending a triple-free list by one character stays triple-free when the
new head is not a backtick or at most one backtick leads the tail. -/
theorem tripleFree_cons (c : Char) (l : List Char)
    (hl : tripleFree l = true)
    (h : c = btick → leadTicks l ≤ 1) :
    tripleFree (c :: l) = true := by
  match l with
  | [] => rfl
  | [a] => rfl
  | a :: b :: l' =>
    by_cases hc : c = btick
    · have hlt := h hc
      subst hc
      have hab : (a == btick && b == btick) = false := by
        by_cases ha : a = btick
        · subst ha
          rw [leadTicks_cons] at hlt
          simp only [beq_self_eq_true, if_true] at hlt
          by_cases hb : b = btick
          · subst hb
            rw [leadTicks_cons] at hlt
            simp only [beq_self_eq_true, if_true] at hlt
            omega
          · simp [hb]
        · simp [ha]
      simp only [tripleFree, beq_self_eq_true, Bool.true_and, hab,
        Bool.and_false, if_false]
      exact hl
    · have hb : (c == btick) = false := beq_eq_false_iff_ne.mpr hc
      simp only [tripleFree, hb, Bool.false_and, if_false]
      exact hl

/-- A list not starting with two backticks has a backtick run of length at
most one. -/
theorem leadTicks_le_one (rest : List Char)
    (h : ([btick, btick].isPrefixOf rest) = false) : leadTicks rest ≤ 1 := by
  cases rest with
  | nil => simp [leadTicks]
  | cons a r =>
    by_cases ha : a = btick
    · subst ha
      cases r with
      | nil => simp [leadTicks]
      | cons b r2 =>
        by_cases hb : b = btick
        · subst hb
          simp [List.isPrefixOf] at h
        · rw [leadTicks_cons, leadTicks_cons]
          simp [hb]
    · rw [leadTicks_cons]
      simp [ha]

/-- One `replace("```", "")` pass leaves no three consecutive backticks, and
never lengthens the leading backtick run. -/
theorem removeOccsF_ticks (fuel : Nat) (l : List Char) (hf : l.length ≤ fuel) :
    tripleFree (removeOccsF [btick, btick, btick] fuel l) = true ∧
    leadTicks (removeOccsF [btick, btick, btick] fuel l) ≤
      min (leadTicks l) 2 := by
  induction fuel generalizing l with
  | zero =>
    cases l with
    | nil => exact ⟨rfl, by simp [removeOccsF, leadTicks]⟩
    | cons c rest => simp at hf
  | succ fuel ih =>
    cases l with
    | nil => exact ⟨rfl, by simp [removeOccsF, leadTicks]⟩
    | cons c rest =>
      simp only [removeOccsF]
      by_cases hpre : ([btick, btick, btick].isPrefixOf (c :: rest)) = true
      · rw [if_pos hpre]
        cases rest with
        | nil => simp [List.isPrefixOf] at hpre
        | cons c2 rest2 =>
          cases rest2 with
          | nil => simp [List.isPrefixOf] at hpre
          | cons c3 rest3 =>
            simp only [List.isPrefixOf, Bool.and_eq_true, beq_iff_eq] at hpre
            obtain ⟨h1, h2, h3, -⟩ := hpre
            subst h1; subst h2; subst h3
            have hlen : rest3.length ≤ fuel := by
              simp only [List.length_cons] at hf; omega
            obtain ⟨ht, hl⟩ := ih rest3 hlen
            refine ⟨by simpa using ht, ?_⟩
            have : List.drop 2 (btick :: btick :: rest3) = rest3 := rfl
            rw [show ([btick, btick, btick].length - 1) = 2 from rfl, this]
            rw [leadTicks_cons, leadTicks_cons, leadTicks_cons]
            simp only [beq_self_eq_true, if_true]
            omega
      · rw [if_neg hpre]
        have hlen : rest.length ≤ fuel := by
          simp only [List.length_cons] at hf; omega
        obtain ⟨ht, hl⟩ := ih rest hlen
        by_cases hc : c = btick
        · subst hc
          have hp2 : ([btick, btick].isPrefixOf rest) = false := by
            cases hpp : ([btick, btick].isPrefixOf rest) with
            | false => rfl
            | true =>
              exfalso
              apply hpre
              simp only [List.isPrefixOf, beq_self_eq_true, Bool.true_and]
              exact hpp
          have hr1 : leadTicks rest ≤ 1 := leadTicks_le_one rest hp2
          refine ⟨tripleFree_cons _ _ ht (fun _ => by omega), ?_⟩
          rw [leadTicks_cons, leadTicks_cons]
          simp only [beq_self_eq_true, if_true]
          omega
        · have hb : (c == btick) = false := beq_eq_false_iff_ne.mpr hc
          refine ⟨tripleFree_cons _ _ ht (fun hcc => absurd hcc hc), ?_⟩
          rw [leadTicks_cons, leadTicks_cons]
          simp [hb]

/-- Claim C10 as amended: the cleaning first trims surrounding whitespace
(`strip()`), then removes every occurrence of the two fence substrings in
single left-to-right passes, wherever they occur — also inside field
values; in particular no three consecutive backticks survive it. -/
theorem c10_strip (r : String) :
    stripFences r = claimStrip (String.mk (pyStrip r.data)) ∧
    tripleFree (stripFences r).data = true := by
  refine ⟨rfl, ?_⟩
  show tripleFree
    (removeOccs "```".data (removeOccs "```json".data (pyStrip r.data))) = true
  unfold removeOccs
  rw [show "```".data = [btick, btick, btick] from rfl]
  exact (removeOccsF_ticks _ _ (le_refl _)).1

/-! ## Round-trip lemmas: `loads` after `dumps` (claim C8) -/

/-- Reading back a hexadecimal digit character. -/
theorem hexVal_hexDigitChar : ∀ n : Nat, n < 16 → hexVal (hexDigitChar n) = some n := by
  decide

/-- Evaluation of `hex4` on four readable digits. -/
theorem hex4_eval {a b c d : Char} {ha hb hc hd : Nat}
    (h1 : hexVal a = some ha) (h2 : hexVal b = some hb)
    (h3 : hexVal c = some hc) (h4 : hexVal d = some hd) :
    hex4 a b c d = some (((ha * 16 + hb) * 16 + hc) * 16 + hd) := by
  simp [hex4, h1, h2, h3, h4]

/-- One unescaped character is consumed as itself. -/
theorem psb_raw (c : Char) (l : List Char)
    (h1 : c ≠ '"') (h2 : c ≠ '\\') (h3 : ¬ c.toNat < 32) :
    parseStringBody (c :: l) =
      (parseStringBody l).map (fun sr => (c :: sr.1, sr.2)) := by
  simp only [parseStringBody, if_neg h1, if_neg h2, if_neg h3]

/-- A `\u00XY` escape decodes to the control character it encodes. -/
theorem psb_u (t : Nat) (l : List Char) (h : t < 32) :
    parseStringBody ('\\' :: 'u' :: '0' :: '0' ::
        hexDigitChar (t / 16) :: hexDigitChar (t % 16) :: l) =
      (parseStringBody l).map (fun sr => (Char.ofNat t :: sr.1, sr.2)) := by
  have hh : hex4 '0' '0' (hexDigitChar (t / 16)) (hexDigitChar (t % 16)) =
      some t := by
    rw [hex4_eval (show hexVal '0' = some 0 from rfl)
      (show hexVal '0' = some 0 from rfl)
      (hexVal_hexDigitChar _ (by omega)) (hexVal_hexDigitChar _ (by omega))]
    congr 1
    omega
  show (match hex4 '0' '0' (hexDigitChar (t / 16)) (hexDigitChar (t % 16)) with
        | some n =>
          if n < 55296 then
            (parseStringBody l).map
              (fun sr : List Char × List Char => (Char.ofNat n :: sr.1, sr.2))
          else none
        | none => none) = _
  rw [hh]
  dsimp only
  rw [if_pos (by omega : t < 55296)]
theorem psb_q (l : List Char) :
    parseStringBody ('\\' :: '"' :: l) =
      (parseStringBody l).map (fun sr => ('"' :: sr.1, sr.2)) := rfl

theorem psb_bs (l : List Char) :
    parseStringBody ('\\' :: '\\' :: l) =
      (parseStringBody l).map (fun sr => ('\\' :: sr.1, sr.2)) := rfl

theorem psb_n (l : List Char) :
    parseStringBody ('\\' :: 'n' :: l) =
      (parseStringBody l).map (fun sr => ('\n' :: sr.1, sr.2)) := rfl

theorem psb_t (l : List Char) :
    parseStringBody ('\\' :: 't' :: l) =
      (parseStringBody l).map (fun sr => ('\t' :: sr.1, sr.2)) := rfl

theorem psb_r (l : List Char) :
    parseStringBody ('\\' :: 'r' :: l) =
      (parseStringBody l).map (fun sr => ('\r' :: sr.1, sr.2)) := rfl

theorem psb_b (l : List Char) :
    parseStringBody ('\\' :: 'b' :: l) =
      (parseStringBody l).map (fun sr => (Char.ofNat 8 :: sr.1, sr.2)) := rfl

theorem psb_f (l : List Char) :
    parseStringBody ('\\' :: 'f' :: l) =
      (parseStringBody l).map (fun sr => (Char.ofNat 12 :: sr.1, sr.2)) := rfl

/-- Decoding inverts escaping: the serialized body of a string literal
parses back to the original characters. -/
theorem parseStringBody_flatMap (s rest : List Char) :
    parseStringBody (s.flatMap escapeChar ++ '"' :: rest) = some (s, rest) := by
  induction s with
  | nil => rfl
  | cons c s ih =>
    rw [List.flatMap_cons, List.append_assoc]
    by_cases e1 : c = '"'
    · subst e1
      rw [show escapeChar '"' = ['\\', '"'] from rfl]
      simp only [List.cons_append, List.nil_append]
      rw [psb_q, ih]
      rfl
    · by_cases e2 : c = '\\'
      · subst e2
        rw [show escapeChar '\\' = ['\\', '\\'] from rfl]
        simp only [List.cons_append, List.nil_append]
        rw [psb_bs, ih]
        rfl
      · by_cases e3 : c = '\n'
        · subst e3
          rw [show escapeChar '\n' = ['\\', 'n'] from rfl]
          simp only [List.cons_append, List.nil_append]
          rw [psb_n, ih]
          rfl
        · by_cases e4 : c = '\t'
          · subst e4
            rw [show escapeChar '\t' = ['\\', 't'] from rfl]
            simp only [List.cons_append, List.nil_append]
            rw [psb_t, ih]
            rfl
          · by_cases e5 : c = '\r'
            · subst e5
              rw [show escapeChar '\r' = ['\\', 'r'] from rfl]
              simp only [List.cons_append, List.nil_append]
              rw [psb_r, ih]
              rfl
            · by_cases e6 : c.toNat = 8
              · have he : escapeChar c = ['\\', 'b'] := by
                  simp only [escapeChar, if_neg e1, if_neg e2, if_neg e3,
                    if_neg e4, if_neg e5, if_pos e6]
                have hc : Char.ofNat 8 = c := by rw [← e6, Char.ofNat_toNat]
                rw [he]
                simp only [List.cons_append, List.nil_append]
                rw [psb_b, ih, hc]
                rfl
              · by_cases e7 : c.toNat = 12
                · have he : escapeChar c = ['\\', 'f'] := by
                    simp only [escapeChar, if_neg e1, if_neg e2, if_neg e3,
                      if_neg e4, if_neg e5, if_neg e6, if_pos e7]
                  have hc : Char.ofNat 12 = c := by rw [← e7, Char.ofNat_toNat]
                  rw [he]
                  simp only [List.cons_append, List.nil_append]
                  rw [psb_f, ih, hc]
                  rfl
                · by_cases e8 : c.toNat < 32
                  · have he : escapeChar c = ['\\', 'u', '0', '0',
                        hexDigitChar (c.toNat / 16), hexDigitChar (c.toNat % 16)] := by
                      simp only [escapeChar, if_neg e1, if_neg e2, if_neg e3,
                        if_neg e4, if_neg e5, if_neg e6, if_neg e7, if_pos e8]
                    rw [he]
                    simp only [List.cons_append, List.nil_append]
                    rw [psb_u c.toNat _ e8, ih, Char.ofNat_toNat]
                    rfl
                  · have he : escapeChar c = [c] := by
                      simp only [escapeChar, if_neg e1, if_neg e2, if_neg e3,
                        if_neg e4, if_neg e5, if_neg e6, if_neg e7, if_neg e8]
                    rw [he]
                    simp only [List.cons_append, List.nil_append]
                    rw [psb_raw c _ e1 e2 e8, ih]
                    rfl
theorem toNat_digitChar (d : Nat) (h : d < 10) :
    (Char.ofNat (48 + d)).toNat = 48 + d := by
  interval_cases d <;> decide

theorem digitChar_isDigit (d : Nat) (h : d < 10) :
    isDigitChar (Char.ofNat (48 + d)) = true := by
  interval_cases d <;> decide

theorem digitChar_ne_zero_char (d : Nat) (h : d < 10) (hd : d ≠ 0) :
    Char.ofNat (48 + d) ≠ '0' := by
  intro he
  have := congrArg Char.toNat he
  rw [toNat_digitChar d h] at this
  simp at this
  exact hd this

theorem natDigits_nil (fuel : Nat) : natDigits fuel 0 = [] := by
  cases fuel <;> rfl

theorem natDigits_ne_nil (fuel n : Nat) (h0 : 0 < n) (hf : n ≤ fuel) :
    natDigits fuel n ≠ [] := by
  cases fuel with
  | zero => omega
  | succ f =>
    simp only [natDigits, if_neg (by omega : ¬ n = 0)]
    simp

theorem natDigits_digits (fuel : Nat) :
    ∀ n, n ≤ fuel → ∀ c ∈ natDigits fuel n, isDigitChar c = true := by
  induction fuel with
  | zero => intro n _ c hc; simp [natDigits] at hc
  | succ f ih =>
    intro n hn c hc
    by_cases h0 : n = 0
    · subst h0; simp [natDigits] at hc
    · simp only [natDigits, if_neg h0, List.mem_append,
        List.mem_singleton] at hc
      rcases hc with hc | rfl
      · exact ih (n / 10) (by omega) c hc
      · exact digitChar_isDigit (n % 10) (by omega)

theorem natDigits_foldl (fuel : Nat) :
    ∀ n, n ≤ fuel →
      (natDigits fuel n).foldl (fun a c => a * 10 + (c.toNat - 48)) 0 = n := by
  induction fuel with
  | zero => intro n hn; interval_cases n; rfl
  | succ f ih =>
    intro n hn
    by_cases h0 : n = 0
    · subst h0; rfl
    · simp only [natDigits, if_neg h0, List.foldl_append, List.foldl_cons,
        List.foldl_nil]
      rw [ih (n / 10) (by omega), toNat_digitChar (n % 10) (by omega)]
      omega

theorem natDigits_head (fuel : Nat) :
    ∀ n, 0 < n → n ≤ fuel → (natDigits fuel n).head? ≠ some '0' := by
  induction fuel with
  | zero => intro n h0 hf; omega
  | succ f ih =>
    intro n h0 hf
    simp only [natDigits, if_neg (by omega : ¬ n = 0)]
    cases hnd : natDigits f (n / 10) with
    | nil =>
      simp only [List.nil_append, List.head?_cons]
      have hq : n / 10 = 0 := by
        by_contra hq0
        exact natDigits_ne_nil f (n / 10) (by omega) (by omega) hnd
      have hm : n % 10 ≠ 0 := by omega
      intro he
      exact digitChar_ne_zero_char (n % 10) (by omega) hm (Option.some.inj he)
    | cons a l =>
      rw [← hnd]
      have hq0 : 0 < n / 10 := by
        by_contra hq0
        rw [show n / 10 = 0 by omega, natDigits_nil] at hnd
        cases hnd
      rw [List.head?_append_of_ne_nil _ (by rw [hnd]; simp)]
      exact ih (n / 10) hq0 (by omega)

theorem takeWhile_append_all {p : Char → Bool} (l1 l2 : List Char)
    (h1 : ∀ c ∈ l1, p c = true)
    (h2 : ∀ c, l2.head? = some c → p c = false) :
    (l1 ++ l2).takeWhile p = l1 ∧ (l1 ++ l2).dropWhile p = l2 := by
  induction l1 with
  | nil =>
    cases l2 with
    | nil => exact ⟨rfl, rfl⟩
    | cons c l2' =>
      have := h2 c rfl
      simp [List.takeWhile_cons, List.dropWhile_cons, this]
  | cons a l1' ih =>
    have ha := h1 a (by simp)
    obtain ⟨iht, ihd⟩ := ih (fun c hc => h1 c (by simp [hc]))
    simp [List.takeWhile_cons, List.dropWhile_cons, ha, iht, ihd]

theorem dumpNat_ne_nil (n : Nat) : dumpNat n ≠ [] := by
  by_cases h0 : n = 0
  · subst h0; simp [dumpNat]
  · simp only [dumpNat, if_neg h0]
    exact natDigits_ne_nil n n (by omega) (le_refl n)

theorem dumpNat_digits (n : Nat) : ∀ c ∈ dumpNat n, isDigitChar c = true := by
  by_cases h0 : n = 0
  · subst h0; intro c hc; simp [dumpNat] at hc; subst hc; decide
  · simp only [dumpNat, if_neg h0]
    exact natDigits_digits n n (le_refl n)

theorem parseNat_dumpNat (n : Nat) (rest : List Char)
    (hrest : ∀ c, rest.head? = some c →
      isDigitChar c = false ∧ c ≠ '.' ∧ c ≠ 'e' ∧ c ≠ 'E') :
    parseNat (dumpNat n ++ rest) = some (n, rest) := by
  obtain ⟨htake, hdrop⟩ := takeWhile_append_all (dumpNat n) rest
    (dumpNat_digits n) (fun c hc => (hrest c hc).1)
  simp only [parseNat, htake, hdrop]
  rw [if_neg (by simp [dumpNat_ne_nil n])]
  have hlead : ¬ (1 < (dumpNat n).length ∧ (dumpNat n).head? = some '0') := by
    rintro ⟨hlen, hhead⟩
    by_cases h0 : n = 0
    · subst h0; simp [dumpNat] at hlen
    · rw [show dumpNat n = natDigits n n by simp [dumpNat, h0]] at hhead
      exact natDigits_head n n (by omega) (le_refl n) hhead
  rw [if_neg hlead]
  have hfold : (dumpNat n).foldl (fun a c => a * 10 + (c.toNat - 48)) 0 = n := by
    by_cases h0 : n = 0
    · subst h0; rfl
    · simp only [dumpNat, if_neg h0]
      exact natDigits_foldl n n (le_refl n)
  cases rest with
  | nil => simp [hfold]
  | cons c r' =>
    obtain ⟨-, h1, h2, h3⟩ := hrest c rfl
    split
    · next heq => exact absurd (List.head_eq_of_cons_eq heq) h1
    · next heq => exact absurd (List.head_eq_of_cons_eq heq) h2
    · next heq => exact absurd (List.head_eq_of_cons_eq heq) h3
    · simp [hfold]

theorem dumpNat_head_not_minus (n : Nat) :
    ∀ c l, dumpNat n = c :: l → c ≠ '-' := by
  intro c l hd he
  subst he
  have := dumpNat_digits n '-' (by rw [hd]; simp)
  exact absurd this (by decide)

theorem parseNumber_dumpInt (i : Int) (rest : List Char)
    (hrest : ∀ c, rest.head? = some c →
      isDigitChar c = false ∧ c ≠ '.' ∧ c ≠ 'e' ∧ c ≠ 'E') :
    parseNumber (dumpInt i ++ rest) = some (Json.num i, rest) := by
  by_cases hi : i < 0
  · rw [show dumpInt i = '-' :: dumpNat i.natAbs by
      unfold dumpInt; rw [if_pos hi]]
    show (parseNat (dumpNat i.natAbs ++ rest)).map _ = _
    rw [parseNat_dumpNat i.natAbs rest hrest]
    simp only [Option.map_some']
    rw [show -((i.natAbs : Nat) : Int) = i by omega]
  · rw [show dumpInt i = dumpNat i.natAbs by unfold dumpInt; rw [if_neg hi]]
    obtain ⟨c, l, hd⟩ : ∃ c l, dumpNat i.natAbs = c :: l := by
      cases hdn : dumpNat i.natAbs with
      | nil => exact absurd hdn (dumpNat_ne_nil _)
      | cons c l => exact ⟨c, l, rfl⟩
    have hc : c ≠ '-' := dumpNat_head_not_minus i.natAbs c l hd
    rw [hd, List.cons_append]
    show parseNumber (c :: (l ++ rest)) = _
    rw [parseNumber]
    rw [← List.cons_append, ← hd, parseNat_dumpNat i.natAbs rest hrest]
    simp only [Option.map_some']
    rw [show ((i.natAbs : Nat) : Int) = i by omega]
    intro l1 heq
    exact hc (List.head_eq_of_cons_eq heq)
theorem skipWs_cons (c : Char) (l : List Char) (h : isJsonWs c = false) :
    skipWs (c :: l) = c :: l := by
  simp [skipWs, List.dropWhile_cons, h]

theorem skipWs_space (l : List Char) : skipWs (' ' :: l) = skipWs l := by
  simp [skipWs, List.dropWhile, isJsonWs]

theorem parseValue_ws (fuel : Nat) (l : List Char) :
    parseValue fuel (' ' :: l) = parseValue fuel l := by
  cases fuel with
  | zero => rfl
  | succ f =>
    simp only [parseValue]
    rw [skipWs_space]

theorem parseElems_ws (fuel : Nat) (l : List Char) (acc : List Json) :
    parseElems fuel (' ' :: l) acc = parseElems fuel l acc := by
  cases fuel with
  | zero => rfl
  | succ f => simp only [parseElems, parseValue_ws]

theorem parseMembers_ws (fuel : Nat) (l : List Char)
    (acc : List (String × Json)) :
    parseMembers fuel (' ' :: l) acc = parseMembers fuel l acc := by
  cases fuel with
  | zero => rfl
  | succ f =>
    simp only [parseMembers]
    rw [skipWs_space]

theorem pfuel_pos (j : Json) : 1 ≤ pfuel j := by
  cases j with
  | arr xs => cases xs <;> simp [pfuel]
  | obj fs => cases fs <;> simp [pfuel]
  | null => simp [pfuel]
  | bool b => simp [pfuel]
  | num i => simp [pfuel]
  | str s => simp [pfuel]

theorem digit_head_ok (c : Char) (h : c = '-' ∨ isDigitChar c = true) :
    isJsonWs c = false ∧ c ≠ '"' ∧ c ≠ '[' ∧ c ≠ Char.ofNat 123 ∧
      c ≠ 'n' ∧ c ≠ 't' ∧ c ≠ 'f' ∧ c ≠ ']' ∧ c ≠ Char.ofNat 125 ∧
      c ≠ ',' := by
  rcases h with rfl | h
  · refine ⟨rfl, ?_, ?_, ?_, ?_, ?_, ?_, ?_, ?_, ?_⟩ <;> decide
  · have hb : 48 ≤ c.toNat ∧ c.toNat ≤ 57 := by
      simpa [isDigitChar] using h
    have hne : ∀ d : Char, d.toNat < 48 ∨ 57 < d.toNat → c ≠ d := by
      intro d hd he
      subst he
      rcases hd with hd | hd <;> omega
    refine ⟨?_, ?_, ?_, ?_, ?_, ?_, ?_, ?_, ?_, ?_⟩
    · cases hw : isJsonWs c
      · rfl
      · exfalso
        simp only [isJsonWs, Bool.or_eq_true, beq_iff_eq] at hw
        rcases hw with ((rfl | rfl) | rfl) | rfl <;> exact absurd h (by decide)
    · exact hne _ (by decide)
    · exact hne _ (by decide)
    · exact hne _ (by decide)
    · exact hne _ (by decide)
    · exact hne _ (by decide)
    · exact hne _ (by decide)
    · exact hne _ (by decide)
    · exact hne _ (by decide)
    · exact hne _ (by decide)

theorem dumpInt_head (i : Int) :
    ∃ c l, dumpInt i = c :: l ∧ (c = '-' ∨ isDigitChar c = true) := by
  by_cases hi : i < 0
  · exact ⟨'-', dumpNat i.natAbs, by unfold dumpInt; rw [if_pos hi], Or.inl rfl⟩
  · obtain ⟨c, l, hd⟩ : ∃ c l, dumpNat i.natAbs = c :: l := by
      cases hdn : dumpNat i.natAbs with
      | nil => exact absurd hdn (dumpNat_ne_nil _)
      | cons c l => exact ⟨c, l, rfl⟩
    refine ⟨c, l, ?_, Or.inr (dumpNat_digits _ c (by rw [hd]; simp))⟩
    unfold dumpInt
    rw [if_neg hi, hd]

theorem dumpVal_head (j : Json) :
    ∃ c l, dumpVal j = c :: l ∧ isJsonWs c = false ∧ c ≠ ']' ∧
      c ≠ Char.ofNat 125 ∧ c ≠ ',' := by
  cases j with
  | null => exact ⟨'n', _, rfl, by decide, by decide, by decide, by decide⟩
  | bool b =>
    cases b
    · exact ⟨'f', _, rfl, by decide, by decide, by decide, by decide⟩
    · exact ⟨'t', _, rfl, by decide, by decide, by decide, by decide⟩
  | num i =>
    obtain ⟨c, l, hd, hc⟩ := dumpInt_head i
    obtain ⟨h1, -, -, -, -, -, -, h8, h9, h10⟩ := digit_head_ok c hc
    exact ⟨c, l, hd, h1, h8, h9, h10⟩
  | str s => exact ⟨'"', _, rfl, by decide, by decide, by decide, by decide⟩
  | arr xs =>
    cases xs with
    | nil => exact ⟨'[', _, rfl, by decide, by decide, by decide, by decide⟩
    | cons x xs =>
      exact ⟨'[', _, rfl, by decide, by decide, by decide, by decide⟩
  | obj fs =>
    cases fs with
    | nil =>
      exact ⟨Char.ofNat 123, _, rfl, by decide, by decide, by decide, by decide⟩
    | cons f fs =>
      exact ⟨Char.ofNat 123, _, rfl, by decide, by decide, by decide, by decide⟩

theorem okDelim_elems (xs : List Json) (rest : List Char) :
    okDelim (dumpElems xs ++ ']' :: rest) := by
  cases xs with
  | nil => simp [dumpElems, okDelim]
  | cons y ys => simp [dumpElems, okDelim]

theorem okDelim_fields (fs : List (String × Json)) (rest : List Char) :
    okDelim (dumpFields fs ++ Char.ofNat 125 :: rest) := by
  cases fs with
  | nil => simp [dumpFields, okDelim]
  | cons f fs => simp [dumpFields, okDelim]

theorem okDelim_num_ok (rest : List Char) (h : okDelim rest) :
    ∀ c, rest.head? = some c →
      isDigitChar c = false ∧ c ≠ '.' ∧ c ≠ 'e' ∧ c ≠ 'E' := by
  cases rest with
  | nil => intro c hc; cases hc
  | cons c0 r =>
    intro c hc
    rw [List.head?_cons, Option.some.injEq] at hc
    subst hc
    rcases h with rfl | rfl | rfl <;> refine ⟨by decide, by decide, by decide, by decide⟩

theorem nodup_any_middle (l1 : List String) (k : String) (l2 : List String)
    (h : nodupKeys (l1 ++ k :: l2) = true) :
    l1.any (fun a => a == k) = false := by
  induction l1 with
  | nil => rfl
  | cons a l1' ih =>
    simp only [List.cons_append, nodupKeys, List.append_eq, Bool.and_eq_true,
      Bool.not_eq_true'] at h
    obtain ⟨ha, hrest⟩ := h
    simp only [List.any_append, List.any_cons, Bool.or_eq_false_iff] at ha
    simp only [List.any_cons, Bool.or_eq_false_iff]
    refine ⟨?_, ih hrest⟩
    have hka : (k == a) = false := ha.2.1
    cases hak : a == k
    · rfl
    · exfalso
      have : a = k := by simpa using hak
      subst this
      simp at hka
  
theorem dictInsert_notmem (fs : List (String × Json)) (k : String) (v : Json)
    (h : (fs.map Prod.fst).any (fun a => a == k) = false) :
    dictInsert fs k v = fs ++ [(k, v)] := by
  have hany : ∀ gs : List (String × Json),
      ((gs.map Prod.fst).any (fun a => a == k)) = false →
      gs.any (fun kv => kv.1 == k) = false := by
    intro gs
    induction gs with
    | nil => intro _; rfl
    | cons g gs ih =>
      intro hg
      simp only [List.map_cons, List.any_cons, Bool.or_eq_false_iff] at hg ⊢
      exact ⟨hg.1, ih hg.2⟩
  simp [dictInsert, hany fs h]

/-- The loop of `parseElems` after a value followed by `", "`. -/
theorem parseElems_comma (fuel : Nat) (l R : List Char) (acc : List Json)
    (x : Json) (h : parseValue fuel l = some (x, ',' :: R)) :
    parseElems (Nat.succ fuel) l acc = parseElems fuel R (acc ++ [x]) := by
  simp only [parseElems]
  rw [h]
  rfl

/-- The end of `parseElems` at the closing bracket. -/
theorem parseElems_rbracket (fuel : Nat) (l R : List Char) (acc : List Json)
    (x : Json) (h : parseValue fuel l = some (x, ']' :: R)) :
    parseElems (Nat.succ fuel) l acc = some (Json.arr (acc ++ [x]), R) := by
  simp only [parseElems]
  rw [h]
  rfl

/-- `parseMembers` through one key and its colon. -/
theorem parseMembers_step (fuel : Nat) (l kd T : List Char)
    (acc : List (String × Json))
    (hs : parseStringBody l = some (kd, ':' :: T)) :
    parseMembers (Nat.succ fuel) ('"' :: l) acc =
      (match parseValue fuel T with
       | none => none
       | some (v, r4) =>
         match skipWs r4 with
         | ',' :: r5 => parseMembers fuel r5 (dictInsert acc (String.mk kd) v)
         | r0 :: r5 =>
           if r0 = Char.ofNat 125 then
             some (Json.obj (dictInsert acc (String.mk kd) v), r5)
           else none
         | [] => none) := by
  have h1 : parseMembers (Nat.succ fuel) ('"' :: l) acc =
      (match parseStringBody l with
       | none => none
       | some (k, r2) =>
         match skipWs r2 with
         | ':' :: r3 =>
           match parseValue fuel r3 with
           | none => none
           | some (v, r4) =>
             match skipWs r4 with
             | ',' :: r5 => parseMembers fuel r5 (dictInsert acc (String.mk k) v)
             | r0 :: r5 =>
               if r0 = Char.ofNat 125 then
                 some (Json.obj (dictInsert acc (String.mk k) v), r5)
               else none
             | [] => none
         | _ => none) := rfl
  rw [h1, hs]
  rfl
theorem wellFormedList_cons {x : Json} {xs : List Json}
    (h : wellFormedList (x :: xs) = true) :
    wellFormed x = true ∧ wellFormedList xs = true := by
  simpa [wellFormedList, Bool.and_eq_true] using h

theorem wellFormedFields_cons {f : String × Json} {fs : List (String × Json)}
    (h : wellFormedFields (f :: fs) = true) :
    wellFormed f.2 = true ∧ wellFormedFields fs = true := by
  simpa [wellFormedFields, Bool.and_eq_true] using h

/-- The central round-trip induction: with enough fuel, the parser consumes
the serialized form of any well-formed value (and of serialized element and
member lists) and returns the value unchanged. -/
theorem parse_dump (fuel : Nat) :
    (∀ j rest, wellFormed j = true → pfuel j ≤ fuel → okDelim rest →
      parseValue fuel (dumpVal j ++ rest) = some (j, rest)) ∧
    (∀ x xs acc rest, wellFormedList (x :: xs) = true →
      pfuelElems (x :: xs) ≤ fuel → okDelim rest →
      parseElems fuel (dumpVal x ++ (dumpElems xs ++ ']' :: rest)) acc =
        some (Json.arr (acc ++ x :: xs), rest)) ∧
    (∀ k v fs acc rest, wellFormedFields ((k, v) :: fs) = true →
      nodupKeys ((acc ++ (k, v) :: fs).map Prod.fst) = true →
      pfuelMembers ((k, v) :: fs) ≤ fuel → okDelim rest →
      parseMembers fuel
          (dumpField (k, v) ++ (dumpFields fs ++ Char.ofNat 125 :: rest)) acc =
        some (Json.obj (acc ++ (k, v) :: fs), rest)) := by
  induction fuel with
  | zero =>
    refine ⟨?_, ?_, ?_⟩
    · intro j _ _ hp _
      exact absurd hp (by have := pfuel_pos j; omega)
    · intro x xs _ _ _ hp _
      have h1 : pfuelElems (x :: xs) = 1 + max (pfuel x) (pfuelElems xs) := rfl
      omega
    · intro k v fs _ _ _ _ hp _
      have h1 : pfuelMembers ((k, v) :: fs) =
          1 + max (pfuel v) (pfuelMembers fs) := rfl
      omega
  | succ fuel ih =>
    obtain ⟨ihV, ihE, ihM⟩ := ih
    refine ⟨?_, ?_, ?_⟩
    · -- parseValue on a serialized value
      intro j rest hwf hp hd
      cases j with
      | null => rfl
      | bool b => cases b <;> rfl
      | num i =>
        obtain ⟨c, l, hdc, hcd⟩ := dumpInt_head i
        obtain ⟨hws, hq, hbr, hlb, hn, ht, hf, -, -, -⟩ := digit_head_ok c hcd
        show parseValue (fuel + 1) (dumpInt i ++ rest) = _
        rw [hdc, List.cons_append]
        simp only [parseValue]
        rw [skipWs_cons _ _ hws]
        dsimp only
        rw [if_neg hq, if_neg hbr, if_neg hlb, if_neg hn, if_neg ht, if_neg hf]
        rw [← List.cons_append, ← hdc]
        exact parseNumber_dumpInt i rest (okDelim_num_ok rest hd)
      | str s =>
        have hshape : dumpVal (Json.str s) ++ rest =
            '"' :: (s.data.flatMap escapeChar ++ '"' :: rest) := by
          simp [dumpVal, dumpStr, List.append_assoc]
        rw [hshape]
        simp only [parseValue]
        rw [skipWs_cons _ _ (by decide)]
        dsimp only
        rw [if_pos rfl]
        rw [parseStringBody_flatMap]
        rfl
      | arr xs =>
        cases xs with
        | nil => rfl
        | cons x xs =>
          have hshape : dumpVal (Json.arr (x :: xs)) ++ rest =
              '[' :: (dumpVal x ++ (dumpElems xs ++ ']' :: rest)) := by
            simp [dumpVal, List.append_assoc]
          rw [hshape]
          simp only [parseValue]
          rw [skipWs_cons _ _ (by decide)]
          dsimp only
          rw [if_neg (by decide : ¬ ('[' : Char) = '"'), if_pos rfl]
          obtain ⟨c0, l0, hx, hws0, hne0, -, -⟩ := dumpVal_head x
          have hcall := ihE x xs [] rest (by
            simpa [wellFormed] using hwf) (by
            simp only [pfuel] at hp; omega) hd
          rw [hx, List.cons_append, skipWs_cons _ _ hws0]
          rw [hx, List.cons_append] at hcall
          split
          · next r2 heq =>
            exact absurd (List.head_eq_of_cons_eq heq) hne0
          · simpa using hcall
      | obj fs =>
        cases fs with
        | nil => rfl
        | cons f fs =>
          obtain ⟨k, v⟩ := f
          have hshape : dumpVal (Json.obj ((k, v) :: fs)) ++ rest =
              Char.ofNat 123 ::
                (dumpField (k, v) ++
                  (dumpFields fs ++ Char.ofNat 125 :: rest)) := by
            simp [dumpVal, List.append_assoc]
          rw [hshape]
          simp only [parseValue]
          rw [skipWs_cons _ _ (by decide)]
          dsimp only
          rw [if_neg (by decide : ¬ Char.ofNat 123 = '"'),
            if_neg (by decide : ¬ Char.ofNat 123 = '['), if_pos rfl]
          have hwf2 : nodupKeys (((k, v) :: fs).map Prod.fst) = true ∧
              wellFormedFields ((k, v) :: fs) = true := by
            simpa [wellFormed, Bool.and_eq_true] using hwf
          have hcall := ihM k v fs [] rest hwf2.2 (by simpa using hwf2.1)
            (by simp only [pfuel] at hp; omega) hd
          have hshape2 : dumpField (k, v) ++
              (dumpFields fs ++ Char.ofNat 125 :: rest) =
              '"' :: (k.data.flatMap escapeChar ++ '"' ::
                (':' :: ' ' ::
                  (dumpVal v ++ (dumpFields fs ++ Char.ofNat 125 :: rest)))) := by
            simp [dumpField, dumpStr, List.append_assoc]
          rw [hshape2] at hcall ⊢
          rw [skipWs_cons _ _ (by decide)]
          dsimp only
          rw [if_neg (by decide : ¬ ('"' : Char) = Char.ofNat 125)]
          simpa using hcall
    · -- parseElems on serialized elements
      intro x xs acc rest hwf hp hd
      obtain ⟨hwx, hwxs⟩ := wellFormedList_cons hwf
      have hpx : pfuel x ≤ fuel := by
        have h1 : pfuelElems (x :: xs) = 1 + max (pfuel x) (pfuelElems xs) := rfl
        omega
      have hv := ihV x (dumpElems xs ++ ']' :: rest) hwx hpx
        (okDelim_elems xs rest)
      cases xs with
      | nil =>
        rw [show dumpElems ([] : List Json) ++ ']' :: rest =
          ']' :: rest from rfl] at hv
        show parseElems (Nat.succ fuel) (dumpVal x ++ (']' :: rest)) acc = _
        rw [parseElems_rbracket fuel _ rest acc x hv]
      | cons y ys =>
        rw [show dumpElems (y :: ys) ++ ']' :: rest =
          ',' :: (' ' :: ((dumpVal y ++ dumpElems ys) ++ ']' :: rest))
          from rfl] at hv
        show parseElems (Nat.succ fuel) (dumpVal x ++
          (',' :: (' ' :: ((dumpVal y ++ dumpElems ys) ++ ']' :: rest)))) acc = _
        rw [parseElems_comma fuel _ _ acc x hv]
        rw [parseElems_ws, List.append_assoc]
        rw [ihE y ys (acc ++ [x]) rest hwxs (by
          have h1 : pfuelElems (x :: y :: ys) =
              1 + max (pfuel x) (pfuelElems (y :: ys)) := rfl
          omega) hd]
        simp
    · -- parseMembers on serialized members
      intro k v fs acc rest hwf hnd hp hd
      obtain ⟨hwv, hwfs⟩ := wellFormedFields_cons hwf
      have hpv : pfuel v ≤ fuel := by
        have h1 : pfuelMembers ((k, v) :: fs) =
            1 + max (pfuel v) (pfuelMembers fs) := rfl
        omega
      have hins : dictInsert acc (String.mk k.data) v = acc ++ [(k, v)] := by
        rw [show String.mk k.data = k from rfl]
        apply dictInsert_notmem
        exact nodup_any_middle (acc.map Prod.fst) k (fs.map Prod.fst)
          (by simpa [List.map_append] using hnd)
      have hshape2 : dumpField (k, v) ++
          (dumpFields fs ++ Char.ofNat 125 :: rest) =
          '"' :: (k.data.flatMap escapeChar ++ '"' ::
            (':' :: (' ' ::
              (dumpVal v ++ (dumpFields fs ++ Char.ofNat 125 :: rest))))) := by
        simp [dumpField, dumpStr, List.append_assoc]
      rw [hshape2]
      rw [parseMembers_step fuel _ k.data _ acc
        (parseStringBody_flatMap k.data _)]
      rw [parseValue_ws]
      have hv := ihV v (dumpFields fs ++ Char.ofNat 125 :: rest) hwv hpv
        (okDelim_fields fs rest)
      rw [hv]
      cases fs with
      | nil =>
        show some (Json.obj (dictInsert acc (String.mk k.data) v), rest) = _
        rw [hins]
      | cons f2 fs2 =>
        obtain ⟨k2, v2⟩ := f2
        show parseMembers fuel
          (' ' :: ((dumpField (k2, v2) ++ dumpFields fs2) ++
            Char.ofNat 125 :: rest))
          (dictInsert acc (String.mk k.data) v) = _
        rw [hins, parseMembers_ws, List.append_assoc]
        rw [ihM k2 v2 fs2 (acc ++ [(k, v)]) rest hwfs (by
          simpa [List.append_assoc] using hnd) (by
          have h1 : pfuelMembers ((k, v) :: (k2, v2) :: fs2) =
              1 + max (pfuel v) (pfuelMembers ((k2, v2) :: fs2)) := rfl
          omega) hd]
        simp
theorem dumpInt_ne_nil (i : Int) : dumpInt i ≠ [] := by
  unfold dumpInt
  by_cases hi : i < 0
  · rw [if_pos hi]
    simp
  · rw [if_neg hi]
    exact dumpNat_ne_nil _

mutual

theorem pfuel_le_len : (j : Json) → pfuel j ≤ (dumpVal j).length
  | Json.null => by simp [pfuel, dumpVal]
  | Json.bool b => by cases b <;> simp [pfuel, dumpVal]
  | Json.num i => by
    have h : dumpInt i ≠ [] := dumpInt_ne_nil i
    have : 0 < (dumpInt i).length := List.length_pos.mpr h
    simp only [pfuel, dumpVal]
    omega
  | Json.str s => by
    simp only [pfuel, dumpVal, dumpStr]
    simp
  | Json.arr [] => by simp [pfuel, dumpVal]
  | Json.arr (x :: xs) => by
    have hx := pfuel_le_len x
    have hxs := pfuelElems_le_len xs
    have h1 : pfuel (Json.arr (x :: xs)) =
        1 + (1 + max (pfuel x) (pfuelElems xs)) := rfl
    have h2 : (dumpVal (Json.arr (x :: xs))).length =
        1 + ((dumpVal x).length + (dumpElems xs).length) + 1 := by
      simp [dumpVal]
      omega
    omega
  | Json.obj [] => by simp [pfuel, dumpVal]
  | Json.obj ((k, v) :: fs) => by
    have hv := pfuel_le_len v
    have hfs := pfuelMembers_le_len fs
    have h1 : pfuel (Json.obj ((k, v) :: fs)) =
        1 + (1 + max (pfuel v) (pfuelMembers fs)) := rfl
    have h2 : (dumpVal (Json.obj ((k, v) :: fs))).length =
        1 + ((dumpField (k, v)).length + (dumpFields fs).length) + 1 := by
      simp [dumpVal]
      omega
    have h3 : (dumpField (k, v)).length =
        (dumpStr k).length + 2 + (dumpVal v).length := by
      simp [dumpField]
      omega
    omega

theorem pfuelElems_le_len : (xs : List Json) →
    pfuelElems xs ≤ (dumpElems xs).length
  | [] => by simp [pfuelElems, dumpElems]
  | x :: xs => by
    have hx := pfuel_le_len x
    have hxs := pfuelElems_le_len xs
    have h1 : pfuelElems (x :: xs) = 1 + max (pfuel x) (pfuelElems xs) := rfl
    have h2 : (dumpElems (x :: xs)).length =
        2 + ((dumpVal x).length + (dumpElems xs).length) := by
      simp [dumpElems]
      omega
    omega

theorem pfuelMembers_le_len : (fs : List (String × Json)) →
    pfuelMembers fs ≤ (dumpFields fs).length
  | [] => by simp [pfuelMembers, dumpFields]
  | (k, v) :: fs => by
    have hv := pfuel_le_len v
    have hfs := pfuelMembers_le_len fs
    have h1 : pfuelMembers ((k, v) :: fs) =
        1 + max (pfuel v) (pfuelMembers fs) := rfl
    have h2 : (dumpFields ((k, v) :: fs)).length =
        2 + ((dumpField (k, v)).length + (dumpFields fs).length) := by
      simp [dumpFields]
      omega
    have h3 : (dumpField (k, v)).length =
        (dumpStr k).length + 2 + (dumpVal v).length := by
      simp [dumpField]
      omega
    omega

end

/-- Serialization inverts: `json.loads` after `json.dumps` returns the
value unchanged, for every value with duplicate-free object keys. -/
theorem loads_dumps (j : Json) (h : wellFormed j = true) :
    loads (dumps j) = some j := by
  have hp : pfuel j ≤ (String.mk (dumpVal j)).length + 1 := by
    have h1 := pfuel_le_len j
    have h2 : (String.mk (dumpVal j)).length = (dumpVal j).length := rfl
    omega
  have hmain := (parse_dump ((String.mk (dumpVal j)).length + 1)).1 j [] h hp
    trivial
  rw [List.append_nil] at hmain
  unfold loads dumps
  rw [show (String.mk (dumpVal j)).data = dumpVal j from rfl]
  rw [hmain]
  rfl
theorem wellFormedList_push (acc : List Json) (x : Json)
    (ha : wellFormedList acc = true) (hx : wellFormed x = true) :
    wellFormedList (acc ++ [x]) = true := by
  induction acc with
  | nil => simpa [wellFormedList]
  | cons a l ih =>
    obtain ⟨h1, h2⟩ := wellFormedList_cons ha
    simp only [List.cons_append, wellFormedList, Bool.and_eq_true]
    exact ⟨h1, ih h2⟩

theorem dictInsert_replace_keys (fs : List (String × Json)) (k : String)
    (v : Json) :
    (fs.map (fun kv => if kv.1 == k then (k, v) else kv)).map Prod.fst =
      fs.map Prod.fst := by
  induction fs with
  | nil => rfl
  | cons a fs ih =>
    simp only [List.map_cons, List.cons.injEq]
    refine ⟨?_, ih⟩
    by_cases hk : a.1 == k
    · rw [if_pos hk]
      exact (eq_of_beq hk).symm
    · rw [if_neg hk]

theorem nodupKeys_push (ks : List String) (k : String)
    (hfree : ks.any (fun a => a == k) = false) (hnd : nodupKeys ks = true) :
    nodupKeys (ks ++ [k]) = true := by
  induction ks with
  | nil => rfl
  | cons a ks ih =>
    simp only [List.any_cons, Bool.or_eq_false_iff] at hfree
    simp only [nodupKeys, Bool.and_eq_true, Bool.not_eq_true'] at hnd
    have hrec := ih hfree.2 hnd.2
    show nodupKeys (a :: (ks ++ [k])) = true
    simp only [nodupKeys, Bool.and_eq_true, Bool.not_eq_true']
    refine ⟨?_, hrec⟩
    rw [List.any_append]
    simp only [List.any_cons, List.any_nil, Bool.or_eq_false_iff]
    refine ⟨hnd.1, ?_, trivial⟩
    cases hka : k == a
    · rfl
    · exfalso
      have : k = a := eq_of_beq hka
      subst this
      rw [hfree.1] at hka
      cases hka

theorem dictInsert_keys_nodup (acc : List (String × Json)) (k : String)
    (v : Json) (h : nodupKeys (acc.map Prod.fst) = true) :
    nodupKeys ((dictInsert acc k v).map Prod.fst) = true := by
  unfold dictInsert
  by_cases hmem : acc.any (fun kv => kv.1 == k)
  · rw [if_pos hmem, dictInsert_replace_keys]
    exact h
  · rw [if_neg hmem]
    rw [List.map_append]
    apply nodupKeys_push _ _ _ h
    have : ∀ gs : List (String × Json), gs.any (fun kv => kv.1 == k) = false →
        (gs.map Prod.fst).any (fun a => a == k) = false := by
      intro gs
      induction gs with
      | nil => intro _; rfl
      | cons g gs ih =>
        intro hg
        simp only [List.any_cons, Bool.or_eq_false_iff] at hg
        simp only [List.map_cons, List.any_cons, Bool.or_eq_false_iff]
        exact ⟨hg.1, ih hg.2⟩
    exact this acc (Bool.not_eq_true _ ▸ (by simpa using hmem))

theorem dictInsert_wfFields (acc : List (String × Json)) (k : String)
    (v : Json) (ha : wellFormedFields acc = true) (hv : wellFormed v = true) :
    wellFormedFields (dictInsert acc k v) = true := by
  unfold dictInsert
  by_cases hmem : acc.any (fun kv => kv.1 == k)
  · rw [if_pos hmem]
    clear hmem
    induction acc with
    | nil => rfl
    | cons a fs ih =>
      obtain ⟨h1, h2⟩ := wellFormedFields_cons ha
      simp only [List.map_cons, wellFormedFields, Bool.and_eq_true]
      refine ⟨?_, ih h2⟩
      by_cases hk : a.1 == k
      · rw [if_pos hk]
        exact hv
      · rw [if_neg hk]
        exact h1
  · rw [if_neg hmem]
    clear hmem
    induction acc with
    | nil => simpa [wellFormedFields]
    | cons a fs ih =>
      obtain ⟨h1, h2⟩ := wellFormedFields_cons ha
      simp only [List.cons_append, wellFormedFields, Bool.and_eq_true]
      exact ⟨h1, ih h2⟩

theorem parseNumber_shape (l : List Char) (v : Json) (r : List Char)
    (h : parseNumber l = some (v, r)) : ∃ i, v = Json.num i := by
  unfold parseNumber at h
  split at h
  · obtain ⟨nr, -, hfa⟩ := Option.map_eq_some'.mp h
    injection hfa with h1 h2
    exact ⟨_, h1.symm⟩
  · obtain ⟨nr, -, hfa⟩ := Option.map_eq_some'.mp h
    injection hfa with h1 h2
    exact ⟨_, h1.symm⟩

/-- Everything the recursive-descent parser returns is well formed: object
keys are duplicate-free at every level, because members are inserted with
dict assignment. -/
theorem parse_wf (fuel : Nat) :
    (∀ l v r, parseValue fuel l = some (v, r) → wellFormed v = true) ∧
    (∀ l acc v r, parseElems fuel l acc = some (v, r) →
      wellFormedList acc = true → wellFormed v = true) ∧
    (∀ l acc v r, parseMembers fuel l acc = some (v, r) →
      nodupKeys (acc.map Prod.fst) = true → wellFormedFields acc = true →
      wellFormed v = true) := by
  induction fuel with
  | zero =>
    refine ⟨?_, ?_, ?_⟩
    · intro l v r h
      exact Option.noConfusion h
    · intro l acc v r h _
      exact Option.noConfusion h
    · intro l acc v r h _ _
      exact Option.noConfusion h
  | succ fuel ih =>
    obtain ⟨ihV, ihE, ihM⟩ := ih
    refine ⟨?_, ?_, ?_⟩
    · intro l v r h
      simp only [parseValue] at h
      split at h
      · exact Option.noConfusion h
      · split at h
        · obtain ⟨sr, -, hfa⟩ := Option.map_eq_some'.mp h
          injection hfa with h1 h2
          rw [← h1]
          rfl
        · split at h
          · split at h
            · simp only [Option.some.injEq, Prod.mk.injEq] at h
              rw [← h.1]
              rfl
            · exact ihE _ _ v r h rfl
          · split at h
            · split at h
              · split at h
                · simp only [Option.some.injEq, Prod.mk.injEq] at h
                  rw [← h.1]
                  rfl
                · exact ihM _ _ v r h rfl rfl
              · exact ihM _ _ v r h rfl rfl
            · split at h
              · obtain ⟨r2, -, hfa⟩ := Option.map_eq_some'.mp h
                injection hfa with h1 h2
                rw [← h1]
                rfl
              · split at h
                · obtain ⟨r2, -, hfa⟩ := Option.map_eq_some'.mp h
                  injection hfa with h1 h2
                  rw [← h1]
                  rfl
                · split at h
                  · obtain ⟨r2, -, hfa⟩ := Option.map_eq_some'.mp h
                    injection hfa with h1 h2
                    rw [← h1]
                    rfl
                  · obtain ⟨i, hi⟩ := parseNumber_shape _ v r h
                    rw [hi]
                    rfl
    · intro l acc v r h hacc
      simp only [parseElems] at h
      split at h
      · exact Option.noConfusion h
      · next v0 r0 heq =>
        have hwv0 : wellFormed v0 = true := ihV l v0 r0 heq
        split at h
        · exact ihE _ _ v r h (wellFormedList_push acc v0 hacc hwv0)
        · simp only [Option.some.injEq, Prod.mk.injEq] at h
          rw [← h.1]
          simpa [wellFormed] using wellFormedList_push acc v0 hacc hwv0
        · exact Option.noConfusion h
    · intro l acc v r h hnd hacc
      simp only [parseMembers] at h
      split at h
      · split at h
        · exact Option.noConfusion h
        · next k r2 heq2 =>
          split at h
          · split at h
            · exact Option.noConfusion h
            · next v0 r4 heq4 =>
              have hwv0 : wellFormed v0 = true := ihV _ v0 r4 heq4
              split at h
              · exact ihM _ _ v r h
                  (dictInsert_keys_nodup acc (String.mk k) v0 hnd)
                  (dictInsert_wfFields acc (String.mk k) v0 hacc hwv0)
              · split at h
                · simp only [Option.some.injEq, Prod.mk.injEq] at h
                  rw [← h.1]
                  simp only [wellFormed, Bool.and_eq_true]
                  exact ⟨dictInsert_keys_nodup acc (String.mk k) v0 hnd,
                    dictInsert_wfFields acc (String.mk k) v0 hacc hwv0⟩
                · exact Option.noConfusion h
              · exact Option.noConfusion h
          · exact Option.noConfusion h
      · exact Option.noConfusion h

/-- A successfully parsed document is well formed. -/
theorem loads_wf (s : String) (j : Json) (h : loads s = some j) :
    wellFormed j = true := by
  unfold loads at h
  split at h
  · next v rest heq =>
    split at h
    · have hv : v = j := by
        simpa using h
      rw [← hv]
      exact (parse_wf (s.length + 1)).1 s.data v rest heq
    · exact Option.noConfusion h
  · exact Option.noConfusion h
/-- Claim C8: for every AgentResult produced by a successful
`run_analysis_agent` run, the `analysis` field came from `json.loads`,
so its objects have duplicate-free keys at every level, and a JSON
encode/decode round-trip (`json.loads` after `json.dumps`) reproduces it
exactly. -/
theorem c8_roundtrip (env : Agent.AgentEnv) (st st2 : Agent.Vault)
    (uid doc : String) (r : Agent.AgentResult)
    (h : Agent.run_analysis_agent env st uid doc = (st2, Except.ok r)) :
    loads (dumps r.analysis) = some r.analysis := by
  have hwf : wellFormed r.analysis = true := by
    simp only [Agent.run_analysis_agent] at h
    split at h
    · simp at h
    · split at h
      · simp at h
      · next j heq =>
        simp only [Prod.mk.injEq, Except.ok.injEq] at h
        rw [← h.2]
        exact loads_wf _ _ heq
  exact loads_dumps r.analysis hwf

/-- Witness for `c8_roundtrip`: the fenced empty-object reply parses to
`Json.obj []`, whose round-trip through dumps and loads is the identity. -/
theorem c8_roundtrip_witness :
    Agent.run_analysis_agent agentEnvEmptyObj ⟨[]⟩ "u1" "doc" =
      (⟨[]⟩, Except.ok ⟨Json.obj [], []⟩) ∧
    loads (dumps (Json.obj [])) = some (Json.obj []) :=
  ⟨rfl, c8_roundtrip agentEnvEmptyObj ⟨[]⟩ ⟨[]⟩ "u1" "doc"
    ⟨Json.obj [], []⟩ rfl⟩
